import Mathlib

/-
  Verification of the TinyIMG image-processing core
  (src/c_src/src/image_processor.c) against its specification.

  Modelling conventions, applied uniformly:
  * C `float` values are modelled as exact rationals (ℚ).  All the concrete
    executions examined below stay inside the exactly-representable regime
    (small integers and halves), where C single-precision arithmetic and ℚ
    agree.
  * `unsigned char` pixel data is modelled as ℕ; the byte arrays of
    `ImageMatrix` become `List ℕ`, indexed exactly as the C code indexes them
    (`(y*width + x)*channels + c`), with out-of-range reads giving 0 (the
    C buffers are calloc-style zero-initialised; genuinely out-of-bounds
    reads are undefined behaviour in C and are never exercised by the
    theorems below).
  * Transient float matrices (`float**`) are modelled as total functions
    `ℕ → ℕ → ℚ` together with the explicit dimension arguments the C code
    carries around; entries outside the allocated rectangle are 0, matching
    the zero-initialising `allocateMatrix`.
  * The libm calls `cosf`, `sinf`, `atan2` have no rational counterpart, so
    every function that (transitively) uses them is parametrised by a
    `FloatTrig` structure supplying them.  All general theorems hold for an
    arbitrary `FloatTrig`; concrete evaluations are chosen so that the
    Jacobi loop converges before any rotation is applied, hence never call
    the trig functions and are independent of the instantiation.
  * `sqrtf` is modelled by `Rat.sqrt`, which agrees with the real square
    root (and hence with `sqrtf` up to its rounding) on perfect squares;
    the concrete evaluations below only take square roots of 0, 1 and 4.
  * Memory allocation always succeeds in the model; the C code's
    NULL-returns on `malloc` failure (and the null-input guards) are the
    only sources of failure, which is why `compressSVD` returns an
    `Option` whose `none` models the C function's NULL result.
-/

namespace TinyIMG

/-- Mirrors the C struct `ImageMatrix`: a `width × height` raster with
`channels` interleaved byte channels stored row-major in `data`. -/
structure ImageMatrix where
  width : ℕ
  height : ℕ
  channels : ℕ
  data : List ℕ
deriving DecidableEq

/-- Pixel read `image->data[(y*width + x)*channels + c]`, with the
zero-initialised default for out-of-range indices. -/
def px (image : ImageMatrix) (y x c : ℕ) : ℕ :=
  image.data.getD ((y * image.width + x) * image.channels + c) 0

/-- The row-major interleaved byte buffer whose entry at index
`(y*w + x)*ch + c` is `f y x c`; this is how every output image of the C
code is filled in (a doubly/triply nested loop writing
`data[(y*w + x)*ch + c]`). -/
def buildData (w h ch : ℕ) (f : ℕ → ℕ → ℕ → ℕ) : List ℕ :=
  (List.range (h * w * ch)).map fun idx => f (idx / (w * ch)) (idx / ch % w) (idx % ch)

/-- Mirrors the C struct `TransformMatrix`: a 3×3 float matrix. -/
structure TransformMatrix where
  m : Fin 3 → Fin 3 → ℚ

/-- `createIdentityMatrix` from the source: the 3×3 identity. -/
def createIdentityMatrix : TransformMatrix :=
  ⟨fun i j => if i = j then 1 else 0⟩

/-- `createScalingMatrix(sx, sy)` from the source: identity with
`m[0][0] = sx` and `m[1][1] = sy`. -/
def createScalingMatrix (sx sy : ℚ) : TransformMatrix :=
  ⟨fun i j =>
    if i = 0 ∧ j = 0 then sx
    else if i = 1 ∧ j = 1 then sy
    else createIdentityMatrix.m i j⟩

/-- `multiplyMatrices` from the source: the row-by-column 3×3 product,
the inner `for k` accumulation loop becoming a sum over `Fin 3`. -/
def multiplyMatrices (m1 m2 : TransformMatrix) : TransformMatrix :=
  ⟨fun i j => ∑ k : Fin 3, m1.m i k * m2.m k j⟩

/-- The 2×2 sub-determinant `m[0][0]*m[1][1] - m[0][1]*m[1][0]` computed by
`applyTransformation` for the singular-transform guard. -/
def subDet (transform : TransformMatrix) : ℚ :=
  transform.m 0 0 * transform.m 1 1 - transform.m 0 1 * transform.m 1 0

/-- The inverse-mapped source coordinate `(origX, origY)` that
`applyTransformation` computes for destination pixel `(x, y)`:
centre-shift, apply the analytic 2×2 inverse, shift back. -/
def origCoords (image : ImageMatrix) (transform : TransformMatrix) (x y : ℕ) : ℚ × ℚ :=
  let centerX : ℚ := (image.width : ℚ) / 2
  let centerY : ℚ := (image.height : ℚ) / 2
  let srcX : ℚ := (x : ℚ) - centerX
  let srcY : ℚ := (y : ℚ) - centerY
  let invDet := 1 / subDet transform
  let a := transform.m 1 1 * invDet
  let b := -transform.m 0 1 * invDet
  let c := -transform.m 1 0 * invDet
  let d := transform.m 0 0 * invDet
  (a * srcX + b * srcY + centerX, c * srcX + d * srcY + centerY)

/-- The bilinear blend computed by `applyTransformation`:
`(1-dx)(1-dy)·p00 + dx(1-dy)·p01 + (1-dx)dy·p10 + dx·dy·p11`. -/
def bilinearValue (dx dy : ℚ) (p00 p01 p10 p11 : ℕ) : ℚ :=
  (1 - dx) * (1 - dy) * p00 + dx * (1 - dy) * p01 +
    (1 - dx) * dy * p10 + dx * dy * p11

/-- The C cast `(unsigned char)value` applied to a non-negative in-range
float: truncation toward zero.  (For values outside `[0, 256)` the C cast
is undefined behaviour; the resampler and the compressor only ever cast
values in `[0, 255]`, cf. the clipping in `compressSVD` and the convexity
of `bilinearValue`.) -/
def byteOfRat (v : ℚ) : ℕ := (Int.floor v).toNat

/-- One destination pixel of `applyTransformation`: the body of its per-pixel
loop.  Returns 0 (the zero-initialised default) when the determinant guard
or the source-bounds test fails, otherwise the truncated bilinear blend of
the four enclosing samples. -/
def transformPixel (image : ImageMatrix) (transform : TransformMatrix) (x y c : ℕ) : ℕ :=
  if |subDet transform| < 1 / 1000000 then 0
  else
    let origX := (origCoords image transform x y).1
    let origY := (origCoords image transform x y).2
    if 0 ≤ origX ∧ origX < (image.width : ℚ) - 1 ∧
        0 ≤ origY ∧ origY < (image.height : ℚ) - 1 then
      let x0 := (Int.floor origX).toNat
      let y0 := (Int.floor origY).toNat
      let dx : ℚ := origX - (x0 : ℚ)
      let dy : ℚ := origY - (y0 : ℚ)
      byteOfRat (bilinearValue dx dy (px image y0 x0 c) (px image y0 (x0 + 1) c)
        (px image (y0 + 1) x0 c) (px image (y0 + 1) (x0 + 1) c))
    else 0

/-- `applyTransformation` from the source: a same-dimension output image whose
every pixel is produced by `transformPixel`. -/
def applyTransformation (image : ImageMatrix) (transform : TransformMatrix) : ImageMatrix :=
  { width := image.width
    height := image.height
    channels := image.channels
    data := buildData image.width image.height image.channels fun y x c =>
      transformPixel image transform x y c }

/- ---------------------------------------------------------------------
   Float-matrix helpers and the Jacobi SVD engine.
--------------------------------------------------------------------- -/

/-- A transient `float**` matrix; entries outside the allocated rectangle
are 0 (matching the zero-initialising `allocateMatrix`). -/
abbrev Mat := ℕ → ℕ → ℚ

/-- The libm calls used by `jacobiRotation`.  General theorems hold for an
arbitrary instance; see the file header. -/
structure FloatTrig where
  cos : ℚ → ℚ
  sin : ℚ → ℚ
  atan2 : ℚ → ℚ → ℚ

/-- An arbitrary `FloatTrig` instance, used only in concrete evaluations
whose Jacobi loop converges before any rotation, so that the result does
not depend on the trig functions at all. -/
def constTrig : FloatTrig := ⟨fun _ => 1, fun _ => 0, fun _ _ => 0⟩

/-- `MAX_ITERATIONS` of `jacobiSVD`. -/
def MAX_ITERATIONS : ℕ := 150

/-- `EPSILON` of `jacobiSVD` (`1e-8f`). -/
def EPSILON : ℚ := 1 / 100000000

/-- `transposeMatrix` from the source.  The dimension arguments are kept for
fidelity; in-range entries are `A j i`. -/
def transposeMatrix (A : Mat) (_rows _cols : ℕ) : Mat := fun i j => A j i

/-- `multiplyMatrices2D` from the source: the triple loop
`C[i][j] = Σ_{k < colsA} A[i][k]*B[k][j]`.  All call sites in the repository
satisfy `colsA = rowsB`, so the NULL return on dimension mismatch is not
modelled. -/
def multiplyMatrices2D (A : Mat) (colsA : ℕ) (B : Mat) : Mat :=
  fun i j => ∑ k ∈ Finset.range colsA, A i k * B k j

/-- `calculateATA` from the source: `Aᵀ·A` via `transposeMatrix` and
`multiplyMatrices2D`. -/
def calculateATA (A : Mat) (rows cols : ℕ) : Mat :=
  multiplyMatrices2D (transposeMatrix A rows cols) rows A

/-- `calculateAAT` from the source: `A·Aᵀ`. -/
def calculateAAT (A : Mat) (rows cols : ℕ) : Mat :=
  multiplyMatrices2D A cols (transposeMatrix A rows cols)

/-- `initIdentityMatrix` from the source: the `size × size` identity written
into a zero-initialised matrix. -/
def initIdentityMatrix (size : ℕ) : Mat :=
  fun i j => if i < size ∧ j < size then (if i = j then 1 else 0) else 0

/-- The scan list of `findLargestOffDiagonal`: the pairs `(i, j)` with
`i < j < n`, visited with `i` ascending and `j` ascending within each `i`. -/
def offDiagPairs (n : ℕ) : List (ℕ × ℕ) :=
  (List.range n).flatMap fun i => ((List.range n).filter fun j => i < j).map fun j => (i, j)

/-- The loop body of `findLargestOffDiagonal`: the running state is
`(maxVal, p, q)`, updated on strict `>`. -/
def bestStep (A : Mat) (st : ℚ × ℕ × ℕ) (pr : ℕ × ℕ) : ℚ × ℕ × ℕ :=
  if |A pr.1 pr.2| > st.1 then (|A pr.1 pr.2|, pr.1, pr.2) else st

/-- The fold of `findLargestOffDiagonal`'s loop, starting from the C
code's initial state `maxVal = 0`, `p = 0`, `q = 1`. -/
def findBestPair (A : Mat) (ps : List (ℕ × ℕ)) : ℚ × ℕ × ℕ :=
  ps.foldl (bestStep A) (0, 0, 1)

/-- `findLargestOffDiagonal` from the source. -/
def findLargestOffDiagonal (A : Mat) (n : ℕ) : ℕ × ℕ :=
  (findBestPair A (offDiagPairs n)).2

/-- The update of the symmetric matrix `A` performed by `jacobiRotation`,
for given rotation parameters `c`, `s`.  The C code first overwrites
`A[p][p]`, `A[q][q]`, `A[p][q]`, `A[q][p]`, then for every `i < n` with
`i ∉ {p, q}` rewrites the four entries `(i,p), (p,i), (i,q), (q,i)` from
saved copies of the old `A[i][p]`, `A[i][q]`; the loop iterations touch
pairwise disjoint entries and read only unmodified ones, so the whole
update is the following simultaneous definition. -/
def rotateA (A : Mat) (n p q : ℕ) (c s : ℚ) : Mat := fun i j =>
  if i = p ∧ j = p then A p p * c * c + A q q * s * s + 2 * A p q * c * s
  else if i = q ∧ j = q then A p p * s * s + A q q * c * c - 2 * A p q * c * s
  else if (i = p ∧ j = q) ∨ (i = q ∧ j = p) then 0
  else if j = p ∧ i < n then A i p * c + A i q * s
  else if i = p ∧ j < n then A j p * c + A j q * s
  else if j = q ∧ i < n then -(A i p) * s + A i q * c
  else if i = q ∧ j < n then -(A j p) * s + A j q * c
  else A i j

/-- The update of the eigenvector accumulator `V` performed by
`jacobiRotation`: columns `p` and `q` are rotated, rows `i < n`. -/
def rotateV (V : Mat) (n p q : ℕ) (c s : ℚ) : Mat := fun i j =>
  if j = p ∧ i < n then V i p * c + V i q * s
  else if j = q ∧ i < n then -(V i p) * s + V i q * c
  else V i j

/-- `jacobiRotation` from the source: compute the rotation angle
`θ = ½·atan2(2·A[p][q], A[q][q] − A[p][p])`, its cosine and sine, and apply
the similarity rotation to `A` and the accumulator `V`. -/
def jacobiRotation (ft : FloatTrig) (A V : Mat) (n p q : ℕ) : Mat × Mat :=
  let theta := 1 / 2 * ft.atan2 (2 * A p q) (A q q - A p p)
  let c := ft.cos theta
  let s := ft.sin theta
  (rotateA A n p q c s, rotateV V n p q c s)

/-- The Jacobi iteration loop of `jacobiSVD`
(`for iter < MAX_ITERATIONS { find largest; if < EPSILON break; rotate }`),
written as fuel recursion; the second component counts the rotations
actually performed. -/
def jacobiLoop (ft : FloatTrig) (n : ℕ) : ℕ → Mat × Mat → (Mat × Mat) × ℕ
  | 0, st => (st, 0)
  | fuel + 1, st =>
    let pq := findLargestOffDiagonal st.1 n
    if |st.1 pq.1 pq.2| < EPSILON then (st, 0)
    else
      let res := jacobiLoop ft n fuel (jacobiRotation ft st.1 st.2 n pq.1 pq.2)
      (res.1, res.2 + 1)

/-- One comparison/swap of `jacobiSVD`'s sorting loop: if `S[i] < S[j]`,
swap the two singular values and swap columns `i`, `j` of the eigenvector
matrix (rows `k < d`). -/
def sortPairStep (d : ℕ) (st : (ℕ → ℚ) × Mat) (i j : ℕ) : (ℕ → ℚ) × Mat :=
  if st.1 i < st.1 j then
    (fun k => st.1 (Equiv.swap i j k),
     fun r c => if r < d then st.2 r (Equiv.swap i j c) else st.2 r c)
  else st

/-- The inner sorting loop `for (j = i+1; j < min_dim; j++)`. -/
def sortInner (d min_dim i : ℕ) (st : (ℕ → ℚ) × Mat) : (ℕ → ℚ) × Mat :=
  ((List.range min_dim).filter fun j => i < j).foldl (fun st j => sortPairStep d st i j) st

/-- The full sorting step of `jacobiSVD`
(`for (i = 0; i < min_dim - 1; i++) for (j = i+1; j < min_dim; j++) ...`),
selection-style exchange sort into descending order, permuting the
eigenvector columns in lock-step. -/
def sortSingularValues (d min_dim : ℕ) (st : (ℕ → ℚ) × Mat) : (ℕ → ℚ) × Mat :=
  (List.range (min_dim - 1)).foldl (fun st i => sortInner d min_dim i st) st

/-- One iteration (index `j`) of `jacobiSVD`'s final normalisation/sign
loop: normalise column `j` of `U` (folding the removed norm into `S[j]`),
likewise for `V`, then flip the signs of both columns if the first entry of
`U[:,j]` of magnitude above `EPSILON` is negative. -/
def normSignStep (m n : ℕ) (st : Mat × (ℕ → ℚ) × Mat) (j : ℕ) : Mat × (ℕ → ℚ) × Mat :=
  let U := st.1
  let S := st.2.1
  let V := st.2.2
  let u_norm := Rat.sqrt (∑ i ∈ Finset.range m, U i j * U i j)
  let U1 : Mat := if EPSILON < u_norm then
      (fun i c => if c = j ∧ i < m then U i c / u_norm else U i c) else U
  let S1 := if EPSILON < u_norm then Function.update S j (S j * u_norm) else S
  let v_norm := Rat.sqrt (∑ i ∈ Finset.range n, V i j * V i j)
  let V1 : Mat := if EPSILON < v_norm then
      (fun i c => if c = j ∧ i < n then V i c / v_norm else V i c) else V
  let S2 := if EPSILON < v_norm then Function.update S1 j (S1 j * v_norm) else S1
  let doFlip := match (List.range m).find? fun i => if EPSILON < |U1 i j| then true else false with
    | some i => if 0 < U1 i j then false else true
    | none => false
  let U2 : Mat := if doFlip then
      (fun i c => if c = j ∧ i < m then -U1 i c else U1 i c) else U1
  let V2 : Mat := if doFlip then
      (fun i c => if c = j ∧ i < n then -V1 i c else V1 i c) else V1
  (U2, S2, V2)

/-- `min_dim = (m < n) ? m : n` of `jacobiSVD`. -/
def minDim (m n : ℕ) : ℕ := if m < n then m else n

/-- The eigenproblem dimension `(n <= m) ? n : m` used throughout
`jacobiSVD` for the covariance matrix and the accumulator. -/
def eigenDim (m n : ℕ) : ℕ := if n ≤ m then n else m

/-- The covariance matrix `jacobiSVD` builds: `AᵀA` when `n ≤ m`, else
`AAᵀ` (minimising the eigenproblem's dimension). -/
def covarianceOf (A : Mat) (m n : ℕ) : Mat :=
  if n ≤ m then calculateATA A m n else calculateAAT A m n

/-- The state `(ATA, eigenvectors)` after `jacobiSVD`'s Jacobi iteration
loop, started from the covariance matrix and an identity accumulator. -/
def svdLoopResult (ft : FloatTrig) (A : Mat) (m n : ℕ) : Mat × Mat :=
  (jacobiLoop ft (eigenDim m n) MAX_ITERATIONS
    (covarianceOf A m n, initIdentityMatrix (eigenDim m n))).1

/-- The raw singular values `S[i] = sqrt(|ATA[i][i]|)` for `i < min_dim`
(the caller zero-initialises the rest). -/
def svdRawS (ft : FloatTrig) (A : Mat) (m n : ℕ) : ℕ → ℚ :=
  fun i => if i < minDim m n then Rat.sqrt |(svdLoopResult ft A m n).1 i i| else 0

/-- The `(S, eigenvectors)` pair after `jacobiSVD`'s descending sort. -/
def svdSortedPair (ft : FloatTrig) (A : Mat) (m n : ℕ) : (ℕ → ℚ) × Mat :=
  sortSingularValues (eigenDim m n) (minDim m n) (svdRawS ft A m n, (svdLoopResult ft A m n).2)

/-- The `V` factor `jacobiSVD` sets up: the sorted eigenvectors directly
when the covariance was `AᵀA`, else `Aᵀ·U·S⁻¹` with sub-`EPSILON` singular
values yielding zero columns.  Entries outside `n × min_dim` stay at the
caller's zero initialisation. -/
def svdV (ft : FloatTrig) (A : Mat) (m n : ℕ) : Mat :=
  if n ≤ m then
    fun i j => if i < n ∧ j < minDim m n then (svdSortedPair ft A m n).2 i j else 0
  else
    let US_inv : Mat := fun i j =>
      if i < m ∧ j < minDim m n then
        (if EPSILON < (svdSortedPair ft A m n).1 j then
          (svdSortedPair ft A m n).2 i j / (svdSortedPair ft A m n).1 j
        else 0)
      else 0
    let tmp := multiplyMatrices2D (transposeMatrix A m n) m US_inv
    fun i j => if i < n ∧ j < minDim m n then tmp i j else 0

/-- The `U` factor `jacobiSVD` sets up: `A·V·S⁻¹` when the covariance was
`AᵀA` (with sub-`EPSILON` singular values yielding zero columns), else the
sorted eigenvectors directly. -/
def svdU (ft : FloatTrig) (A : Mat) (m n : ℕ) : Mat :=
  if n ≤ m then
    let VS_inv : Mat := fun i j =>
      if i < n ∧ j < minDim m n then
        (if EPSILON < (svdSortedPair ft A m n).1 j then
          svdV ft A m n i j / (svdSortedPair ft A m n).1 j
        else 0)
      else 0
    let tmp := multiplyMatrices2D A n VS_inv
    fun i j => if i < m ∧ j < minDim m n then tmp i j else 0
  else
    fun i j => if i < m ∧ j < minDim m n then (svdSortedPair ft A m n).2 i j else 0

/-- `jacobiSVD` from the source, on an `m × n` matrix `A`: build the
covariance (`AᵀA` if `n ≤ m`, else `AAᵀ`), run the Jacobi loop with an
identity accumulator, take `S[i] = sqrt(|ATA[i][i]|)`, sort descending,
derive the missing factor through `S⁻¹`, and run the final
normalisation/sign loop over the `min_dim` columns.
Returns `(U, S, V)`. -/
def jacobiSVD (ft : FloatTrig) (A : Mat) (m n : ℕ) : Mat × (ℕ → ℚ) × Mat :=
  (List.range (minDim m n)).foldl (normSignStep m n)
    (svdU ft A m n, (svdSortedPair ft A m n).1, svdV ft A m n)

/- ---------------------------------------------------------------------
   SVD-based compression (`compressSVD`).
--------------------------------------------------------------------- -/

/-- The C cast `(int)v` of a float: truncation toward zero. -/
def ratTrunc (v : ℚ) : ℤ := if v < 0 then -Int.floor (-v) else Int.floor v

/-- `maxRank = (width < height) ? width : height` in `compressSVD`. -/
def maxRankOf (image : ImageMatrix) : ℕ :=
  if image.width < image.height then image.width else image.height

/-- The retained-rank computation of `compressSVD`:
`k = (int)(maxRank * ratio); if (k < 1) k = 1; if (k > maxRank) k = maxRank`. -/
def computeK (maxRank : ℕ) (ratioVal : ℚ) : ℕ :=
  let k0 : ℤ := ratTrunc ((maxRank : ℚ) * ratioVal)
  let k1 : ℤ := if k0 < 1 then 1 else k0
  let k2 : ℤ := if k1 > (maxRank : ℤ) then (maxRank : ℤ) else k1
  k2.toNat

/-- Modelled from the claim's words (spec §4.5 as read by C2):
`k = clamp(round(maxRank·ratio), 1, maxRank)` with round-to-nearest —
stated only to be compared against the code's `computeK`, which truncates
instead of rounding. -/
def claimK (maxRank : ℕ) (ratioVal : ℚ) : ℕ :=
  let k0 : ℤ := round ((maxRank : ℚ) * ratioVal)
  let k1 : ℤ := if k0 < 1 then 1 else k0
  let k2 : ℤ := if k1 > (maxRank : ℤ) then (maxRank : ℤ) else k1
  k2.toNat

/-- The float matrix of channel `c` of an image, as built by `compressSVD`:
`A[y][x] = data[(y*width + x)*channels + c]`. -/
def channelMatrix (image : ImageMatrix) (c : ℕ) : Mat :=
  fun y x => (px image y x c : ℚ)

/-- The SVD that `compressSVD` runs on channel `c`:
`jacobiSVD(A, height, width, U, S, V)`. -/
def svdOfChannel (ft : FloatTrig) (image : ImageMatrix) (c : ℕ) : Mat × (ℕ → ℚ) × Mat :=
  jacobiSVD ft (channelMatrix image c) image.height image.width

/-- The `valid_svd` check of `compressSVD`: some of the first `k` singular
values exceeds `1e-6`. -/
def validSVD (S : ℕ → ℚ) (k : ℕ) : Bool :=
  (List.range k).any fun i => if (1 : ℚ) / 1000000 < S i then true else false

/-- The clipping `if (value < 0) value = 0; if (value > 255) value = 255;`
of `compressSVD`. -/
def clip255 (v : ℚ) : ℚ := if v < 0 then 0 else if 255 < v then 255 else v

/-- One output pixel of `compressSVD` for channel `c`: if the `valid_svd`
check fails, the original pixel is copied; otherwise the rank-`k`
reconstruction `Σ_{i<k} (U[y][i]·S[i])·V[x][i]` (the code materialises
`US = U·diag(S)` first), clipped to `[0, 255]` and truncated to a byte. -/
def compressedPixel (ft : FloatTrig) (image : ImageMatrix) (k c y x : ℕ) : ℕ :=
  let svd := svdOfChannel ft image c
  if validSVD svd.2.1 k then
    byteOfRat (clip255 (∑ i ∈ Finset.range k, svd.1 y i * svd.2.1 i * svd.2.2 x i))
  else px image y x c

/-- `compressSVD` from the source.  The `Option` return models the C
function's NULL result (null input or allocation failure); in the model
allocation always succeeds, so every reachable path yields `some` of a
same-dimension output image.  Note that the function performs no
validation whatsoever of `ratioVal`. -/
def compressSVD (ft : FloatTrig) (image : ImageMatrix) (ratioVal : ℚ) : Option ImageMatrix :=
  let k := computeK (maxRankOf image) ratioVal
  some { width := image.width
         height := image.height
         channels := image.channels
         data := buildData image.width image.height image.channels fun y x c =>
           compressedPixel ft image k c y x }

/- ---------------------------------------------------------------------
   Theorems.
--------------------------------------------------------------------- -/

/-- Reading back the pixel `(y, x, c)` of a buffer built by `buildData`. -/
theorem buildData_getD (w h ch : ℕ) (f : ℕ → ℕ → ℕ → ℕ) (y x c : ℕ)
    (hy : y < h) (hx : x < w) (hc : c < ch) :
    (buildData w h ch f).getD ((y * w + x) * ch + c) 0 = f y x c := by
  have hch : 0 < ch := lt_of_le_of_lt (Nat.zero_le c) hc
  have hwch : 0 < w * ch := Nat.mul_pos (lt_of_le_of_lt (Nat.zero_le x) hx) hch
  have hxc : x * ch + c < w * ch := by
    calc x * ch + c < x * ch + ch := by omega
    _ = (x + 1) * ch := by ring
    _ ≤ w * ch := Nat.mul_le_mul_right ch (by omega)
  have hidx : (y * w + x) * ch + c = w * ch * y + (x * ch + c) := by ring
  have hlt : (y * w + x) * ch + c < h * w * ch := by
    rw [hidx]
    calc w * ch * y + (x * ch + c) < w * ch * y + w * ch := by omega
    _ = (y + 1) * (w * ch) := by ring
    _ ≤ h * (w * ch) := Nat.mul_le_mul_right (w * ch) (by omega)
    _ = h * w * ch := by ring
  have hdiv1 : ((y * w + x) * ch + c) / (w * ch) = y := by
    rw [hidx, Nat.mul_add_div hwch, Nat.div_eq_of_lt hxc]
    omega
  have hdiv2 : ((y * w + x) * ch + c) / ch % w = x := by
    have : (y * w + x) * ch + c = ch * (y * w + x) + c := by ring
    rw [this, Nat.mul_add_div hch, Nat.div_eq_of_lt hc]
    have : y * w + x + 0 = w * y + x := by ring
    rw [this, Nat.mul_add_mod, Nat.mod_eq_of_lt hx]
  have hmod : ((y * w + x) * ch + c) % ch = c := by
    have : (y * w + x) * ch + c = ch * (y * w + x) + c := by ring
    rw [this, Nat.mul_add_mod, Nat.mod_eq_of_lt hc]
  unfold buildData
  rw [List.getD_eq_getElem?_getD, List.getElem?_map, List.getElem?_range hlt]
  simp only [Option.map_some', Option.getD_some]
  rw [hdiv1, hdiv2, hmod]

/-- C6: composing the identity matrix with an arbitrary 3×3 transform
matrix `M`, on either side, returns `M` entrywise exactly — in particular
within the spec's 1e-5 tolerance. -/
theorem multiplyMatrices_identity (M : TransformMatrix) (i j : Fin 3) :
    (multiplyMatrices createIdentityMatrix M).m i j = M.m i j ∧
    (multiplyMatrices M createIdentityMatrix).m i j = M.m i j := by
  constructor <;>
  · simp only [multiplyMatrices, createIdentityMatrix, Fin.sum_univ_three]
    fin_cases i <;> fin_cases j <;> simp

/-- C10: the bilinear blend computed by the resampler for an accepted
source coordinate is a convex combination of its four byte samples: with
fractional offsets in `[0, 1]` the four weights are non-negative and sum
to 1, so the value lies in `[0, 255]` and the truncating byte cast in
`transformPixel` — which indeed performs no clamping — is applied to an
in-range value. -/
theorem bilinearValue_convex (dx dy : ℚ) (p00 p01 p10 p11 : ℕ)
    (hdx0 : 0 ≤ dx) (hdx1 : dx ≤ 1) (hdy0 : 0 ≤ dy) (hdy1 : dy ≤ 1)
    (h00 : p00 ≤ 255) (h01 : p01 ≤ 255) (h10 : p10 ≤ 255) (h11 : p11 ≤ 255) :
    (0 ≤ (1 - dx) * (1 - dy) ∧ 0 ≤ dx * (1 - dy) ∧ 0 ≤ (1 - dx) * dy ∧ 0 ≤ dx * dy ∧
      (1 - dx) * (1 - dy) + dx * (1 - dy) + (1 - dx) * dy + dx * dy = 1) ∧
    0 ≤ bilinearValue dx dy p00 p01 p10 p11 ∧
    bilinearValue dx dy p00 p01 p10 p11 ≤ 255 := by
  have h1 : (0 : ℚ) ≤ 1 - dx := by linarith
  have h2 : (0 : ℚ) ≤ 1 - dy := by linarith
  have q00 : (p00 : ℚ) ≤ 255 := by exact_mod_cast h00
  have q01 : (p01 : ℚ) ≤ 255 := by exact_mod_cast h01
  have q10 : (p10 : ℚ) ≤ 255 := by exact_mod_cast h10
  have q11 : (p11 : ℚ) ≤ 255 := by exact_mod_cast h11
  have n00 : (0 : ℚ) ≤ (p00 : ℚ) := Nat.cast_nonneg p00
  have n01 : (0 : ℚ) ≤ (p01 : ℚ) := Nat.cast_nonneg p01
  have n10 : (0 : ℚ) ≤ (p10 : ℚ) := Nat.cast_nonneg p10
  have n11 : (0 : ℚ) ≤ (p11 : ℚ) := Nat.cast_nonneg p11
  refine ⟨⟨mul_nonneg h1 h2, mul_nonneg hdx0 h2, mul_nonneg h1 hdy0,
    mul_nonneg hdx0 hdy0, by ring⟩, ?_, ?_⟩
  · unfold bilinearValue
    have t1 := mul_nonneg (mul_nonneg h1 h2) n00
    have t2 := mul_nonneg (mul_nonneg hdx0 h2) n01
    have t3 := mul_nonneg (mul_nonneg h1 hdy0) n10
    have t4 := mul_nonneg (mul_nonneg hdx0 hdy0) n11
    linarith
  · have e : 255 - bilinearValue dx dy p00 p01 p10 p11 =
        (1 - dx) * (1 - dy) * (255 - p00) + dx * (1 - dy) * (255 - p01) +
          (1 - dx) * dy * (255 - p10) + dx * dy * (255 - p11) := by
      unfold bilinearValue; ring
    have t1 := mul_nonneg (mul_nonneg h1 h2) (by linarith : (0 : ℚ) ≤ 255 - p00)
    have t2 := mul_nonneg (mul_nonneg hdx0 h2) (by linarith : (0 : ℚ) ≤ 255 - p01)
    have t3 := mul_nonneg (mul_nonneg h1 hdy0) (by linarith : (0 : ℚ) ≤ 255 - p10)
    have t4 := mul_nonneg (mul_nonneg hdx0 hdy0) (by linarith : (0 : ℚ) ≤ 255 - p11)
    linarith

/-- Witness for `bilinearValue_convex` at `dx = dy = 1/2` and all four
samples equal to 255. -/
theorem bilinearValue_convex_witness :
    ((0 : ℚ) ≤ 1 / 2 ∧ (1 / 2 : ℚ) ≤ 1 ∧ (255 : ℕ) ≤ 255) ∧
    ((0 ≤ (1 - (1 / 2 : ℚ)) * (1 - (1 / 2 : ℚ)) ∧ 0 ≤ (1 / 2 : ℚ) * (1 - (1 / 2 : ℚ)) ∧
        0 ≤ (1 - (1 / 2 : ℚ)) * (1 / 2 : ℚ) ∧ 0 ≤ (1 / 2 : ℚ) * (1 / 2 : ℚ) ∧
        (1 - (1 / 2 : ℚ)) * (1 - (1 / 2 : ℚ)) + (1 / 2 : ℚ) * (1 - (1 / 2 : ℚ)) +
          (1 - (1 / 2 : ℚ)) * (1 / 2 : ℚ) + (1 / 2 : ℚ) * (1 / 2 : ℚ) = 1) ∧
      0 ≤ bilinearValue (1 / 2) (1 / 2) 255 255 255 255 ∧
      bilinearValue (1 / 2) (1 / 2) 255 255 255 255 ≤ 255) :=
  ⟨by norm_num,
    bilinearValue_convex (1 / 2) (1 / 2) 255 255 255 255 (by norm_num) (by norm_num)
      (by norm_num) (by norm_num) (by norm_num) (by norm_num) (by norm_num) (by norm_num)⟩

/-- The inverse-mapped coordinate of the identity transform is the
destination coordinate itself. -/
theorem origCoords_identity (image : ImageMatrix) (x y : ℕ) :
    origCoords image createIdentityMatrix x y = ((x : ℚ), (y : ℚ)) := by
  have e00 : createIdentityMatrix.m 0 0 = 1 := by simp [createIdentityMatrix]
  have e01 : createIdentityMatrix.m 0 1 = 0 := by simp [createIdentityMatrix]
  have e10 : createIdentityMatrix.m 1 0 = 0 := by simp [createIdentityMatrix]
  have e11 : createIdentityMatrix.m 1 1 = 1 := by simp [createIdentityMatrix]
  simp only [origCoords, subDet, e00, e01, e10, e11]
  norm_num

/-- C5: transforming an image with the identity matrix reproduces every
interior pixel (`x ≤ w-2`, `y ≤ h-2`, stated as `x+2 ≤ w`, `y+2 ≤ h`)
exactly; only the excluded last row/column of the output may be zeroed
(they fall outside the resampler's acceptance bound). -/
theorem applyTransformation_identity_interior (image : ImageMatrix) (x y c : ℕ)
    (hx : x + 2 ≤ image.width) (hy : y + 2 ≤ image.height) (hc : c < image.channels) :
    px (applyTransformation image createIdentityMatrix) y x c = px image y x c := by
  have hx1 : x < image.width := by omega
  have hy1 : y < image.height := by omega
  show (buildData image.width image.height image.channels fun y x c =>
      transformPixel image createIdentityMatrix x y c).getD
      ((y * image.width + x) * image.channels + c) 0 = px image y x c
  rw [buildData_getD image.width image.height image.channels _ y x c hy1 hx1 hc]
  have hdet : subDet createIdentityMatrix = 1 := by
    simp [subDet, createIdentityMatrix]
  have hxq : (x : ℚ) < (image.width : ℚ) - 1 := by
    have : (x : ℚ) + 2 ≤ (image.width : ℚ) := by exact_mod_cast hx
    linarith
  have hyq : (y : ℚ) < (image.height : ℚ) - 1 := by
    have : (y : ℚ) + 2 ≤ (image.height : ℚ) := by exact_mod_cast hy
    linarith
  rw [transformPixel, origCoords_identity]
  rw [if_neg (by rw [hdet]; norm_num)]
  rw [if_pos ⟨Nat.cast_nonneg x, hxq, Nat.cast_nonneg y, hyq⟩]
  simp only [Int.floor_natCast, Int.toNat_natCast, sub_self]
  have hbil : bilinearValue 0 0 (px image y x c) (px image y (x + 1) c)
      (px image (y + 1) x c) (px image (y + 1) (x + 1) c) = (px image y x c : ℚ) := by
    unfold bilinearValue; ring
  rw [hbil]
  unfold byteOfRat
  rw [Int.floor_natCast, Int.toNat_natCast]

/-- Witness for `applyTransformation_identity_interior` on a concrete
3×3 grayscale image at the interior pixel `(0, 0)`. -/
theorem applyTransformation_identity_interior_witness :
    (0 + 2 ≤ (ImageMatrix.mk 3 3 1 [10, 20, 30, 40, 50, 60, 70, 80, 90]).width ∧
      0 + 2 ≤ (ImageMatrix.mk 3 3 1 [10, 20, 30, 40, 50, 60, 70, 80, 90]).height ∧
      0 < (ImageMatrix.mk 3 3 1 [10, 20, 30, 40, 50, 60, 70, 80, 90]).channels) ∧
    px (applyTransformation (ImageMatrix.mk 3 3 1 [10, 20, 30, 40, 50, 60, 70, 80, 90])
        createIdentityMatrix) 0 0 0 =
      px (ImageMatrix.mk 3 3 1 [10, 20, 30, 40, 50, 60, 70, 80, 90]) 0 0 0 :=
  ⟨by decide,
    applyTransformation_identity_interior (ImageMatrix.mk 3 3 1 [10, 20, 30, 40, 50, 60, 70, 80, 90])
      0 0 0 (by decide) (by decide) (by decide)⟩

/-- C3 counterexample: on a 4×4 single-channel image whose only non-zero
pixel (value 200) sits in the last column at `(y = 1, x = 3)`, under the
scaling transform `(sx, sy) = (2, 1)` the destination pixel `(x = 3, y = 1)`
inverse-maps to `origX = 5/2`, which lies outside the claimed acceptance
interval `[0, w-2] = [0, 2]`; yet the code accepts it (its bound is
`origX < w-1 = 3`) and writes the bilinear value 100 — half the 200 that is
stored only in the last column, so the last source column is sampled as
well, contradicting both parts of the claim. -/
theorem resampler_exclusive_bound_counterexample :
    (origCoords (ImageMatrix.mk 4 4 1 [0, 0, 0, 0, 0, 0, 0, 200, 0, 0, 0, 0, 0, 0, 0, 0])
        (createScalingMatrix 2 1) 3 1).1 = 5 / 2 ∧
    ¬ ((5 : ℚ) / 2 ≤
        ((ImageMatrix.mk 4 4 1 [0, 0, 0, 0, 0, 0, 0, 200, 0, 0, 0, 0, 0, 0, 0, 0]).width : ℚ) - 2) ∧
    px (applyTransformation (ImageMatrix.mk 4 4 1 [0, 0, 0, 0, 0, 0, 0, 200, 0, 0, 0, 0, 0, 0, 0, 0])
        (createScalingMatrix 2 1)) 1 3 0 = 100 := by
  refine ⟨?_, ?_, ?_⟩
  · norm_num [origCoords, subDet, createScalingMatrix, createIdentityMatrix]
  · norm_num
  · show (buildData 4 4 1 fun y x c =>
        transformPixel (ImageMatrix.mk 4 4 1 [0, 0, 0, 0, 0, 0, 0, 200, 0, 0, 0, 0, 0, 0, 0, 0])
          (createScalingMatrix 2 1) x y c).getD ((1 * 4 + 3) * 1 + 0) 0 = 100
    rw [buildData_getD 4 4 1 _ 1 3 0 (by norm_num) (by norm_num) (by norm_num)]
    have ht : (2 : ℤ).toNat = 2 := rfl
    norm_num [transformPixel, origCoords, subDet, createScalingMatrix, createIdentityMatrix,
      bilinearValue, byteOfRat, px, ht]
    decide

/-- C3 (amended): for a non-singular transform, the destination pixel is
written by bilinear interpolation exactly when the inverse-mapped source
coordinate satisfies `0 ≤ origX < w-1` and `0 ≤ origY < h-1` — strict
upper bounds `w-1` and `h-1` rather than the claimed interval `[0, w-2]`;
consequently the last source row/column can still be sampled, as the upper
interpolation neighbour `x0+1`/`y0+1`, whenever the coordinate falls in
`(w-2, w-1)`/`(h-2, h-1)`.  A coordinate outside the accepted range leaves
the destination pixel at its zero default. -/
theorem transformPixel_gate (image : ImageMatrix) (transform : TransformMatrix) (x y c : ℕ)
    (hx : x < image.width) (hy : y < image.height) (hc : c < image.channels)
    (hdet : ¬ |subDet transform| < 1 / 1000000) :
    px (applyTransformation image transform) y x c =
      (let origX := (origCoords image transform x y).1
       let origY := (origCoords image transform x y).2
       if 0 ≤ origX ∧ origX < (image.width : ℚ) - 1 ∧
           0 ≤ origY ∧ origY < (image.height : ℚ) - 1 then
         byteOfRat (bilinearValue (origX - ((Int.floor origX).toNat : ℚ))
           (origY - ((Int.floor origY).toNat : ℚ))
           (px image (Int.floor origY).toNat (Int.floor origX).toNat c)
           (px image (Int.floor origY).toNat ((Int.floor origX).toNat + 1) c)
           (px image ((Int.floor origY).toNat + 1) (Int.floor origX).toNat c)
           (px image ((Int.floor origY).toNat + 1) ((Int.floor origX).toNat + 1) c))
       else 0) := by
  show (buildData image.width image.height image.channels fun y x c =>
      transformPixel image transform x y c).getD
      ((y * image.width + x) * image.channels + c) 0 = _
  rw [buildData_getD image.width image.height image.channels _ y x c hy hx hc]
  rw [transformPixel, if_neg hdet]

/-- Witness for `transformPixel_gate`: the identity transform on a 2×2
image at destination pixel `(0, 0)`. -/
theorem transformPixel_gate_witness :
    (0 < (ImageMatrix.mk 2 2 1 [5, 6, 7, 8]).width ∧
      0 < (ImageMatrix.mk 2 2 1 [5, 6, 7, 8]).height ∧
      0 < (ImageMatrix.mk 2 2 1 [5, 6, 7, 8]).channels ∧
      ¬ |subDet createIdentityMatrix| < 1 / 1000000) ∧
    px (applyTransformation (ImageMatrix.mk 2 2 1 [5, 6, 7, 8]) createIdentityMatrix) 0 0 0 =
      (let origX := (origCoords (ImageMatrix.mk 2 2 1 [5, 6, 7, 8]) createIdentityMatrix 0 0).1
       let origY := (origCoords (ImageMatrix.mk 2 2 1 [5, 6, 7, 8]) createIdentityMatrix 0 0).2
       if 0 ≤ origX ∧ origX < ((ImageMatrix.mk 2 2 1 [5, 6, 7, 8]).width : ℚ) - 1 ∧
           0 ≤ origY ∧ origY < ((ImageMatrix.mk 2 2 1 [5, 6, 7, 8]).height : ℚ) - 1 then
         byteOfRat (bilinearValue (origX - ((Int.floor origX).toNat : ℚ))
           (origY - ((Int.floor origY).toNat : ℚ))
           (px (ImageMatrix.mk 2 2 1 [5, 6, 7, 8]) (Int.floor origY).toNat (Int.floor origX).toNat 0)
           (px (ImageMatrix.mk 2 2 1 [5, 6, 7, 8]) (Int.floor origY).toNat ((Int.floor origX).toNat + 1) 0)
           (px (ImageMatrix.mk 2 2 1 [5, 6, 7, 8]) ((Int.floor origY).toNat + 1) (Int.floor origX).toNat 0)
           (px (ImageMatrix.mk 2 2 1 [5, 6, 7, 8]) ((Int.floor origY).toNat + 1) ((Int.floor origX).toNat + 1) 0))
       else 0) :=
  ⟨⟨by decide, by decide, by decide, by norm_num [subDet, createIdentityMatrix]⟩,
    transformPixel_gate (ImageMatrix.mk 2 2 1 [5, 6, 7, 8]) createIdentityMatrix 0 0 0
      (by decide) (by decide) (by decide) (by norm_num [subDet, createIdentityMatrix])⟩

/-- C9: a single Jacobi rotation preserves symmetry of the working matrix:
whatever the rotation parameters, the explicit mirrored writes of
`jacobiRotation` (`A[p][i] = A[i][p]`, `A[q][i] = A[i][q]`,
`A[p][q] = A[q][p] = 0`) keep `A[i][j] = A[j][i]` on all of the `n × n`
working square, provided it held before. -/
theorem jacobiRotation_preserves_symmetry (ft : FloatTrig) (A V : Mat) (n p q : ℕ)
    (hp : p < n) (hq : q < n) (hpq : p ≠ q)
    (hSym : ∀ i j, i < n → j < n → A i j = A j i) :
    ∀ i j, i < n → j < n →
      (jacobiRotation ft A V n p q).1 i j = (jacobiRotation ft A V n p q).1 j i := by
  intro i j hi hj
  have hA : (jacobiRotation ft A V n p q).1 = rotateA A n p q
      (ft.cos (1 / 2 * ft.atan2 (2 * A p q) (A q q - A p p)))
      (ft.sin (1 / 2 * ft.atan2 (2 * A p q) (A q q - A p p))) := rfl
  rw [hA]
  have hqp : q ≠ p := Ne.symm hpq
  rcases eq_or_ne i p with hip | hip <;> rcases eq_or_ne i q with hiq | hiq <;>
    rcases eq_or_ne j p with hjp | hjp <;> rcases eq_or_ne j q with hjq | hjq <;>
    (try simp [rotateA, hip, hiq, hjp, hjq, hpq, hqp, hi, hj]) <;>
    (try exact hSym i j hi hj)

/-- Witness for `jacobiRotation_preserves_symmetry` on the symmetric 2×2
matrix `[[3, 2], [2, 5]]` with `(p, q) = (0, 1)`. -/
theorem jacobiRotation_preserves_symmetry_witness :
    ((0 : ℕ) < 2 ∧ (1 : ℕ) < 2 ∧ (0 : ℕ) ≠ 1 ∧
      (∀ i j, i < 2 → j < 2 →
        (fun i j => if i = j then (if i = 0 then (3 : ℚ) else 5) else 2) i j =
          (fun i j => if i = j then (if i = 0 then (3 : ℚ) else 5) else 2) j i)) ∧
    (∀ i j, i < 2 → j < 2 →
      (jacobiRotation constTrig
          (fun i j => if i = j then (if i = 0 then (3 : ℚ) else 5) else 2)
          (initIdentityMatrix 2) 2 0 1).1 i j =
        (jacobiRotation constTrig
          (fun i j => if i = j then (if i = 0 then (3 : ℚ) else 5) else 2)
          (initIdentityMatrix 2) 2 0 1).1 j i) :=
  ⟨⟨by omega, by omega, by omega, by
      intro i j hi hj
      interval_cases i <;> interval_cases j <;> norm_num⟩,
    jacobiRotation_preserves_symmetry constTrig
      (fun i j => if i = j then (if i = 0 then (3 : ℚ) else 5) else 2)
      (initIdentityMatrix 2) 2 0 1 (by omega) (by omega) (by omega) (by
        intro i j hi hj
        interval_cases i <;> interval_cases j <;> norm_num)⟩

/-- The search state of `findLargestOffDiagonal` never decreases its
running maximum. -/
theorem bestStep_fst_le (A : Mat) (st : ℚ × ℕ × ℕ) (pr : ℕ × ℕ) :
    st.1 ≤ (bestStep A st pr).1 := by
  unfold bestStep
  split_ifs with h
  · exact le_of_lt h
  · exact le_refl _

/-- The running maximum of `findLargestOffDiagonal` stays equal to (or
below) the magnitude of the entry at its recorded position. -/
theorem foldl_bestStep_inv (A : Mat) :
    ∀ (ps : List (ℕ × ℕ)) (st : ℚ × ℕ × ℕ), st.1 ≤ |A st.2.1 st.2.2| →
      (ps.foldl (bestStep A) st).1 ≤
        |A (ps.foldl (bestStep A) st).2.1 (ps.foldl (bestStep A) st).2.2| := by
  intro ps
  induction ps with
  | nil => intro st h; exact h
  | cons pr ps ih =>
    intro st h
    refine ih (bestStep A st pr) ?_
    unfold bestStep
    split_ifs with hgt
    · exact le_refl _
    · exact h

/-- The running maximum of `findLargestOffDiagonal` never decreases along
the fold. -/
theorem foldl_bestStep_mono (A : Mat) :
    ∀ (ps : List (ℕ × ℕ)) (st : ℚ × ℕ × ℕ), st.1 ≤ (ps.foldl (bestStep A) st).1 := by
  intro ps
  induction ps with
  | nil => intro st; exact le_refl _
  | cons pr ps ih =>
    intro st
    exact le_trans (bestStep_fst_le A st pr) (ih (bestStep A st pr))

/-- Every scanned pair's magnitude is bounded by the final running
maximum of `findLargestOffDiagonal`. -/
theorem foldl_bestStep_mem (A : Mat) :
    ∀ (ps : List (ℕ × ℕ)) (st : ℚ × ℕ × ℕ) (pr : ℕ × ℕ), pr ∈ ps →
      |A pr.1 pr.2| ≤ (ps.foldl (bestStep A) st).1 := by
  intro ps
  induction ps with
  | nil => intro st pr h; cases h
  | cons hd ps ih =>
    intro st pr hmem
    rcases List.mem_cons.mp hmem with he | ht
    · subst he
      refine le_trans ?_ (foldl_bestStep_mono A ps (bestStep A st pr))
      unfold bestStep
      split_ifs with hgt
      · exact le_refl _
      · exact le_of_not_lt hgt
    · exact ih (bestStep A st hd) pr ht

/-- The position returned by `findLargestOffDiagonal` carries the largest
off-diagonal magnitude of the `n × n` matrix. -/
theorem findLargestOffDiagonal_ge (A : Mat) (n : ℕ) (i j : ℕ) (hij : i < j) (hj : j < n) :
    |A i j| ≤ |A (findLargestOffDiagonal A n).1 (findLargestOffDiagonal A n).2| := by
  have hmem : (i, j) ∈ offDiagPairs n := by
    simp only [offDiagPairs, List.mem_flatMap, List.mem_map, List.mem_filter, List.mem_range]
    exact ⟨i, lt_trans hij hj, j, ⟨⟨hj, by simpa using hij⟩, rfl⟩⟩
  have h1 : |A i j| ≤ (findBestPair A (offDiagPairs n)).1 :=
    foldl_bestStep_mem A (offDiagPairs n) (0, 0, 1) (i, j) hmem
  have h2 : (findBestPair A (offDiagPairs n)).1 ≤
      |A (findBestPair A (offDiagPairs n)).2.1 (findBestPair A (offDiagPairs n)).2.2| :=
    foldl_bestStep_inv A (offDiagPairs n) (0, 0, 1) (by simpa using abs_nonneg (A 0 1))
  exact le_trans h1 h2

/-- The two guarantees of the Jacobi iteration loop, for any fuel: it
performs at most `fuel` rotations, and if it performed strictly fewer
then it stopped because every off-diagonal magnitude of the final matrix
is below `EPSILON`. -/
theorem jacobiLoop_spec (ft : FloatTrig) (n : ℕ) :
    ∀ (fuel : ℕ) (st : Mat × Mat),
      (jacobiLoop ft n fuel st).2 ≤ fuel ∧
      ((jacobiLoop ft n fuel st).2 < fuel →
        ∀ i j, i < j → j < n → |(jacobiLoop ft n fuel st).1.1 i j| < EPSILON) := by
  intro fuel
  induction fuel with
  | zero =>
    intro st
    exact ⟨le_refl 0, fun h => absurd h (lt_irrefl 0)⟩
  | succ f ih =>
    intro st
    by_cases hb : |st.1 (findLargestOffDiagonal st.1 n).1 (findLargestOffDiagonal st.1 n).2| < EPSILON
    · constructor
      · simp only [jacobiLoop, hb, if_pos]
        omega
      · intro _ i j hij hj
        simp only [jacobiLoop, hb, if_pos]
        exact lt_of_le_of_lt (findLargestOffDiagonal_ge st.1 n i j hij hj) hb
    · have h := ih (jacobiRotation ft st.1 st.2 n (findLargestOffDiagonal st.1 n).1
        (findLargestOffDiagonal st.1 n).2)
      constructor
      · simp only [jacobiLoop, hb, if_neg, if_false]
        omega
      · intro hlt i j hij hj
        simp only [jacobiLoop, hb, if_neg, if_false] at hlt ⊢
        exact h.2 (by omega) i j hij hj

/-- C8: the Jacobi iteration loop of `jacobiSVD` (on any symmetric input)
terminates after at most `MAX_ITERATIONS = 150` rotations (150 lies in the
spec's 100–150 reference range); if it stopped earlier, then the largest
off-diagonal magnitude of the final matrix is below the convergence
threshold `EPSILON = 1e-8`.  No error is signalled in either case — the
loop's output is used as-is, so a cap-exhausted run yields approximate
eigenpairs. -/
theorem jacobiLoop_cap (ft : FloatTrig) (A V : Mat) (n : ℕ)
    (hSym : ∀ i j, i < n → j < n → A i j = A j i) :
    (jacobiLoop ft n MAX_ITERATIONS (A, V)).2 ≤ 150 ∧
    ((jacobiLoop ft n MAX_ITERATIONS (A, V)).2 < 150 →
      ∀ i j, i < j → j < n →
        |(jacobiLoop ft n MAX_ITERATIONS (A, V)).1.1 i j| < EPSILON) := by
  have h := jacobiLoop_spec ft n MAX_ITERATIONS (A, V)
  simpa [MAX_ITERATIONS] using h

/-- Witness for `jacobiLoop_cap` on the symmetric 2×2 matrix
`[[3, 2], [2, 5]]`. -/
theorem jacobiLoop_cap_witness :
    (∀ i j, i < 2 → j < 2 →
      (fun i j => if i = j then (if i = 0 then (3 : ℚ) else 5) else 2) i j =
        (fun i j => if i = j then (if i = 0 then (3 : ℚ) else 5) else 2) j i) ∧
    ((jacobiLoop constTrig 2 MAX_ITERATIONS
        ((fun i j => if i = j then (if i = 0 then (3 : ℚ) else 5) else 2),
          initIdentityMatrix 2)).2 ≤ 150 ∧
      ((jacobiLoop constTrig 2 MAX_ITERATIONS
          ((fun i j => if i = j then (if i = 0 then (3 : ℚ) else 5) else 2),
            initIdentityMatrix 2)).2 < 150 →
        ∀ i j, i < j → j < 2 →
          |(jacobiLoop constTrig 2 MAX_ITERATIONS
              ((fun i j => if i = j then (if i = 0 then (3 : ℚ) else 5) else 2),
                initIdentityMatrix 2)).1.1 i j| < EPSILON)) :=
  ⟨by
      intro i j hi hj
      interval_cases i <;> interval_cases j <;> norm_num,
    jacobiLoop_cap constTrig
      (fun i j => if i = j then (if i = 0 then (3 : ℚ) else 5) else 2)
      (initIdentityMatrix 2) 2 (by
        intro i j hi hj
        interval_cases i <;> interval_cases j <;> norm_num)⟩

/-- Every inner sorting pass rearranges the singular values by a
permutation and applies the same permutation to the eigenvector columns
(rows `< d`). -/
theorem foldl_sortPairStep_perm (d i : ℕ) :
    ∀ (js : List ℕ) (st : (ℕ → ℚ) × Mat),
      ∃ σ : Equiv.Perm ℕ,
        ((js.foldl (fun st j => sortPairStep d st i j) st).1 = fun k => st.1 (σ k)) ∧
        (∀ r c, r < d → (js.foldl (fun st j => sortPairStep d st i j) st).2 r c = st.2 r (σ c)) := by
  intro js
  induction js with
  | nil =>
    intro st
    exact ⟨Equiv.refl ℕ, rfl, fun r c _ => rfl⟩
  | cons j js ih =>
    intro st
    obtain ⟨σ, h1, h2⟩ := ih (sortPairStep d st i j)
    rw [List.foldl_cons]
    by_cases hlt : st.1 i < st.1 j
    · refine ⟨σ.trans (Equiv.swap i j), ?_, ?_⟩
      · funext k
        rw [h1]
        show (sortPairStep d st i j).1 (σ k) = st.1 (Equiv.swap i j (σ k))
        unfold sortPairStep
        rw [if_pos hlt]
      · intro r c hr
        rw [h2 r c hr]
        show (sortPairStep d st i j).2 r (σ c) = st.2 r (Equiv.swap i j (σ c))
        unfold sortPairStep
        rw [if_pos hlt]
        simp [hr]
    · refine ⟨σ, ?_, ?_⟩
      · funext k
        rw [h1]
        show (sortPairStep d st i j).1 (σ k) = st.1 (σ k)
        unfold sortPairStep
        rw [if_neg hlt]
      · intro r c hr
        rw [h2 r c hr]
        show (sortPairStep d st i j).2 r (σ c) = st.2 r (σ c)
        unfold sortPairStep
        rw [if_neg hlt]

/-- During an inner sorting pass at pivot `i`, the value found at any
position of the window `[i, min_dim)` originates from some position of
that same window. -/
theorem foldl_sortPairStep_origin (d i min_dim : ℕ) (hi : i < min_dim) :
    ∀ (js : List ℕ) (st : (ℕ → ℚ) × Mat), (∀ j ∈ js, i < j ∧ j < min_dim) →
      ∀ b, i ≤ b → b < min_dim →
        ∃ x, i ≤ x ∧ x < min_dim ∧
          (js.foldl (fun st j => sortPairStep d st i j) st).1 b = st.1 x := by
  intro js
  induction js with
  | nil =>
    intro st _ b hb1 hb2
    exact ⟨b, hb1, hb2, rfl⟩
  | cons j js ih =>
    intro st hwin b hb1 hb2
    have hj := hwin j (List.mem_cons_self j js)
    obtain ⟨x, hx1, hx2, hx3⟩ := ih (sortPairStep d st i j)
      (fun j' hj' => hwin j' (List.mem_cons_of_mem j hj')) b hb1 hb2
    rw [List.foldl_cons, hx3]
    unfold sortPairStep
    by_cases hlt : st.1 i < st.1 j
    · rw [if_pos hlt]
      refine ⟨Equiv.swap i j x, ?_, ?_, rfl⟩
      · rw [Equiv.swap_apply_def]
        split_ifs <;> omega
      · rw [Equiv.swap_apply_def]
        split_ifs <;> omega
    · rw [if_neg hlt]
      exact ⟨x, hx1, hx2, rfl⟩

/-- Selection property of an inner sorting pass at pivot `i` over a
duplicate-free list of indices above `i`: afterwards the pivot holds a
value at least as large as every scanned position, positions outside
`{i} ∪ js` are untouched, and the pivot value never decreased. -/
theorem foldl_sortPairStep_sel (d i : ℕ) :
    ∀ (js : List ℕ) (st : (ℕ → ℚ) × Mat), js.Nodup → (∀ j ∈ js, i < j) →
      (∀ j ∈ js, (js.foldl (fun st j => sortPairStep d st i j) st).1 j ≤
        (js.foldl (fun st j => sortPairStep d st i j) st).1 i) ∧
      (∀ k, k ≠ i → k ∉ js →
        (js.foldl (fun st j => sortPairStep d st i j) st).1 k = st.1 k) ∧
      st.1 i ≤ (js.foldl (fun st j => sortPairStep d st i j) st).1 i := by
  intro js
  induction js with
  | nil =>
    intro st _ _
    exact ⟨fun j hj => absurd hj (List.not_mem_nil j), fun k _ _ => rfl, le_refl _⟩
  | cons j js ih =>
    intro st hnd hgt
    have hij : i < j := hgt j (List.mem_cons_self j js)
    have hnd' := List.nodup_cons.mp hnd
    obtain ⟨ihA, ihB, ihC⟩ := ih (sortPairStep d st i j) hnd'.2
      (fun j' hj' => hgt j' (List.mem_cons_of_mem j hj'))
    have hstep_ji : (sortPairStep d st i j).1 j ≤ (sortPairStep d st i j).1 i := by
      unfold sortPairStep
      by_cases hlt : st.1 i < st.1 j
      · rw [if_pos hlt]
        simp [Equiv.swap_apply_left, Equiv.swap_apply_right]
        exact le_of_lt hlt
      · rw [if_neg hlt]
        exact le_of_not_lt hlt
    have hstep_i : st.1 i ≤ (sortPairStep d st i j).1 i := by
      unfold sortPairStep
      by_cases hlt : st.1 i < st.1 j
      · rw [if_pos hlt]
        simp [Equiv.swap_apply_left]
        exact le_of_lt hlt
      · rw [if_neg hlt]
    refine ⟨?_, ?_, ?_⟩
    · intro j' hj'
      rcases List.mem_cons.mp hj' with he | ht
      · subst he
        rw [List.foldl_cons, ihB j' (by omega) hnd'.1]
        exact le_trans hstep_ji ihC
      · rw [List.foldl_cons]
        exact ihA j' ht
    · intro k hk hkmem
      have hkj : k ≠ j := fun he => hkmem (he ▸ List.mem_cons_self j js)
      have hkjs : k ∉ js := fun hmem => hkmem (List.mem_cons_of_mem j hmem)
      rw [List.foldl_cons, ihB k hk hkjs]
      unfold sortPairStep
      by_cases hlt : st.1 i < st.1 j
      · rw [if_pos hlt]
        show st.1 (Equiv.swap i j k) = st.1 k
        rw [Equiv.swap_apply_of_ne_of_ne hk hkj]
      · rw [if_neg hlt]
    · rw [List.foldl_cons]
      exact le_trans hstep_i ihC

/-- One outer sorting pass extends the sorted-and-dominating prefix by
one position. -/
theorem sortInner_inv (d min_dim t : ℕ) (ht : t < min_dim) (st : (ℕ → ℚ) × Mat)
    (hInv : ∀ a b, a < t → a < b → b < min_dim → st.1 b ≤ st.1 a) :
    ∀ a b, a < t + 1 → a < b → b < min_dim →
      (sortInner d min_dim t st).1 b ≤ (sortInner d min_dim t st).1 a := by
  intro a b ha hab hb
  unfold sortInner
  have hmem : ∀ j, j ∈ (List.range min_dim).filter (fun j => t < j) ↔ (j < min_dim ∧ t < j) := by
    intro j
    simp [List.mem_filter]
  have hnd : ((List.range min_dim).filter (fun j => t < j)).Nodup :=
    (List.nodup_range _).filter _
  have hgt : ∀ j ∈ (List.range min_dim).filter (fun j => t < j), t < j :=
    fun j hj => ((hmem j).mp hj).2
  have hwin : ∀ j ∈ (List.range min_dim).filter (fun j => t < j), t < j ∧ j < min_dim :=
    fun j hj => ⟨((hmem j).mp hj).2, ((hmem j).mp hj).1⟩
  obtain ⟨selA, selB, selC⟩ := foldl_sortPairStep_sel d t
    ((List.range min_dim).filter (fun j => t < j)) st hnd hgt
  rcases Nat.lt_succ_iff_lt_or_eq.mp ha with ha' | ha'
  · -- a < t: the pass does not touch position a
    rw [selB a (by omega) (fun hmem' => by
      have := ((hmem a).mp hmem').2
      omega)]
    by_cases hbt : t ≤ b
    · obtain ⟨x, hx1, hx2, hx3⟩ := foldl_sortPairStep_origin d t min_dim ht
        ((List.range min_dim).filter (fun j => t < j)) st hwin b hbt hb
      rw [hx3]
      exact hInv a x ha' (by omega) hx2
    · rw [selB b (by omega) (fun hmem' => by
        have := ((hmem b).mp hmem').2
        omega)]
      exact hInv a b ha' hab hb
  · -- a = t: the selection property of the pass
    subst ha'
    exact selA b ((hmem b).mpr ⟨hb, hab⟩)

/-- The outer sorting loop over consecutive pivots `t, t+1, …` produces a
descending prefix. -/
theorem foldl_sortInner_sorted (d min_dim : ℕ) :
    ∀ (len t : ℕ) (st : (ℕ → ℚ) × Mat), t + len ≤ min_dim →
      (∀ a b, a < t → a < b → b < min_dim → st.1 b ≤ st.1 a) →
      ∀ a b, a < t + len → a < b → b < min_dim →
        ((List.range' t len).foldl (fun st i => sortInner d min_dim i st) st).1 b ≤
          ((List.range' t len).foldl (fun st i => sortInner d min_dim i st) st).1 a := by
  intro len
  induction len with
  | zero =>
    intro t st _ hInv a b ha hab hb
    exact hInv a b (by omega) hab hb
  | succ l ih =>
    intro t st hlen hInv a b ha hab hb
    rw [List.range'_succ, List.foldl_cons]
    exact ih (t + 1) (sortInner d min_dim t st) (by omega)
      (sortInner_inv d min_dim t (by omega) st hInv) a b (by omega) hab hb

/-- The outer sorting loop rearranges the singular values by a permutation
and applies the same permutation to the eigenvector columns. -/
theorem foldl_sortInner_perm (d min_dim : ℕ) :
    ∀ (l : List ℕ) (st : (ℕ → ℚ) × Mat),
      ∃ σ : Equiv.Perm ℕ,
        ((l.foldl (fun st i => sortInner d min_dim i st) st).1 = fun k => st.1 (σ k)) ∧
        (∀ r c, r < d →
          (l.foldl (fun st i => sortInner d min_dim i st) st).2 r c = st.2 r (σ c)) := by
  intro l
  induction l with
  | nil =>
    intro st
    exact ⟨Equiv.refl ℕ, rfl, fun r c _ => rfl⟩
  | cons i l ih =>
    intro st
    obtain ⟨σ, h1, h2⟩ := ih (sortInner d min_dim i st)
    obtain ⟨τ, g1, g2⟩ := foldl_sortPairStep_perm d i
      ((List.range min_dim).filter (fun j => i < j)) st
    rw [List.foldl_cons]
    refine ⟨σ.trans τ, ?_, ?_⟩
    · funext k
      rw [h1]
      show (sortInner d min_dim i st).1 (σ k) = st.1 (τ (σ k))
      exact congrFun g1 (σ k)
    · intro r c hr
      rw [h2 r c hr]
      show (sortInner d min_dim i st).2 r (σ c) = st.2 r (τ (σ c))
      exact g2 r (σ c) hr

/-- C7 (amended): after the sorting step the singular values
`S[0..min_dim-1]` are in non-increasing order, and the eigenvector columns
are permuted by exactly the same permutation as the singular values (the
code swaps both in lock-step).  The swap-on-strict-`<` exchange sort does
NOT, however, preserve the relative order of equal singular values: a
larger value appearing later can swap into an earlier position past a pair
of equal values and reverse them (see the counterexample). -/
theorem sortSingularValues_spec (d min_dim : ℕ) (S : ℕ → ℚ) (E : Mat) :
    ∃ σ : Equiv.Perm ℕ,
      ((sortSingularValues d min_dim (S, E)).1 = fun k => S (σ k)) ∧
      (∀ r c, r < d → (sortSingularValues d min_dim (S, E)).2 r c = E r (σ c)) ∧
      (∀ a b, a < b → b < min_dim →
        (sortSingularValues d min_dim (S, E)).1 b ≤ (sortSingularValues d min_dim (S, E)).1 a) := by
  obtain ⟨σ, h1, h2⟩ := foldl_sortInner_perm d min_dim (List.range (min_dim - 1)) (S, E)
  refine ⟨σ, h1, h2, ?_⟩
  intro a b hab hb
  have hs := foldl_sortInner_sorted d min_dim (min_dim - 1) 0 (S, E) (by omega)
    (fun a b ha _ _ => absurd ha (Nat.not_lt_zero a)) a b (by omega) hab hb
  show ((List.range (min_dim - 1)).foldl (fun st i => sortInner d min_dim i st) (S, E)).1 b ≤
    ((List.range (min_dim - 1)).foldl (fun st i => sortInner d min_dim i st) (S, E)).1 a
  rw [List.range_eq_range']
  exact hs

/-- C7 counterexample: on singular values `S = [1, 1, 2]` with the 3×3
identity eigenvector matrix (arising, e.g., from the diagonal channel
matrix `diag(1, 1, 2)`, whose covariance is already diagonal), the sort
swaps positions 0 and 2, producing `S = [2, 1, 1]` with eigenvector
columns `(e2, e1, e0)`.  The two equal singular values 1 now sit at
positions 1 and 2 carrying columns `e1` and `e0` respectively — the
reverse of their original relative order (`e0`'s value preceded `e1`'s),
refuting the claimed stability of the sort. -/
theorem sort_not_stable_counterexample :
    (sortSingularValues 3 3 ((fun k => if k = 2 then (2 : ℚ) else 1), initIdentityMatrix 3)).1 1 = 1 ∧
    (sortSingularValues 3 3 ((fun k => if k = 2 then (2 : ℚ) else 1), initIdentityMatrix 3)).1 2 = 1 ∧
    (sortSingularValues 3 3 ((fun k => if k = 2 then (2 : ℚ) else 1), initIdentityMatrix 3)).2 1 1 = 1 ∧
    (sortSingularValues 3 3 ((fun k => if k = 2 then (2 : ℚ) else 1), initIdentityMatrix 3)).2 1 2 = 0 ∧
    (sortSingularValues 3 3 ((fun k => if k = 2 then (2 : ℚ) else 1), initIdentityMatrix 3)).2 0 2 = 1 := by
  have hr3 : List.range 3 = [0, 1, 2] := rfl
  have hr2 : List.range 2 = [0, 1] := rfl
  norm_num [sortSingularValues, sortInner, sortPairStep, initIdentityMatrix, hr3, hr2,
    List.filter, Equiv.swap_apply_def]

/-- `Rat.sqrt` of 0, used by the concrete pipeline evaluations. -/
theorem ratSqrt_zero : Rat.sqrt 0 = 0 := by
  rw [show (0 : ℚ) = 0 * 0 by norm_num, Rat.sqrt_eq]
  norm_num

/-- `Rat.sqrt` of 1, used by the concrete pipeline evaluations. -/
theorem ratSqrt_one : Rat.sqrt 1 = 1 := by
  rw [show (1 : ℚ) = 1 * 1 by norm_num, Rat.sqrt_eq]
  norm_num

/-- `Rat.sqrt` of 4, used by the concrete pipeline evaluations. -/
theorem ratSqrt_four : Rat.sqrt 4 = 2 := by
  rw [show (4 : ℚ) = 2 * 2 by norm_num, Rat.sqrt_eq]
  norm_num

/-- On a 2×2 matrix the off-diagonal scan always reports position
`(0, 1)` (the initial state, replaced only by the same pair). -/
theorem findLargestOffDiagonal_two (A : Mat) : findLargestOffDiagonal A 2 = (0, 1) := by
  have hp : offDiagPairs 2 = [(0, 1)] := rfl
  unfold findLargestOffDiagonal findBestPair
  rw [hp]
  simp only [List.foldl_cons, List.foldl_nil]
  unfold bestStep
  split_ifs <;> rfl

/-- The Jacobi loop stops immediately (performing no rotation) when the
largest off-diagonal entry is already below `EPSILON`. -/
theorem jacobiLoop_converged (ft : FloatTrig) (n fuel : ℕ) (st : Mat × Mat)
    (h : |st.1 (findLargestOffDiagonal st.1 n).1 (findLargestOffDiagonal st.1 n).2| < EPSILON) :
    jacobiLoop ft n (fuel + 1) st = (st, 0) := by
  simp [jacobiLoop, h]

/-- The normalisation/sign iteration for column `j` leaves every other
singular value unchanged. -/
theorem normSignStep_S_other (m n : ℕ) (st : Mat × (ℕ → ℚ) × Mat) (j k : ℕ) (hk : k ≠ j) :
    (normSignStep m n st j).2.1 k = st.2.1 k := by
  unfold normSignStep
  dsimp only
  split_ifs <;> simp [Function.update_noteq hk]

/-- The singular value at column `j` after the normalisation/sign
iteration for column `j`: multiplied by the two removed column norms when
they exceed `EPSILON`. -/
theorem normSignStep_S_self (m n : ℕ) (st : Mat × (ℕ → ℚ) × Mat) (j : ℕ) :
    (normSignStep m n st j).2.1 j =
      (let u_norm := Rat.sqrt (∑ i ∈ Finset.range m, st.1 i j * st.1 i j)
       let s1 := if EPSILON < u_norm then st.2.1 j * u_norm else st.2.1 j
       let v_norm := Rat.sqrt (∑ i ∈ Finset.range n, st.2.2 i j * st.2.2 i j)
       if EPSILON < v_norm then s1 * v_norm else s1) := by
  unfold normSignStep
  dsimp only
  split_ifs <;> simp [Function.update_same]

/-- The normalisation/sign iteration for column `j` leaves every other
column of `U` unchanged. -/
theorem normSignStep_U_other (m n : ℕ) (st : Mat × (ℕ → ℚ) × Mat) (j i c : ℕ) (hc : c ≠ j) :
    (normSignStep m n st j).1 i c = st.1 i c := by
  unfold normSignStep
  dsimp only
  split_ifs <;> simp [hc]

/-- The normalisation/sign iteration for column `j` leaves every other
column of `V` unchanged. -/
theorem normSignStep_V_other (m n : ℕ) (st : Mat × (ℕ → ℚ) × Mat) (j i c : ℕ) (hc : c ≠ j) :
    (normSignStep m n st j).2.2 i c = st.2.2 i c := by
  unfold normSignStep
  dsimp only
  split_ifs <;> simp [hc]

/-- The column `j` of `U` after the normalisation/sign iteration for
column `j`: scaled by the removed norm (when above `EPSILON`) and negated
when the sign scan flips. -/
theorem normSignStep_U_self (m n : ℕ) (st : Mat × (ℕ → ℚ) × Mat) (j i : ℕ) (hi : i < m) :
    (normSignStep m n st j).1 i j =
      (let u_norm := Rat.sqrt (∑ t ∈ Finset.range m, st.1 t j * st.1 t j)
       let U1 : Mat := if EPSILON < u_norm then
           (fun a c => if c = j ∧ a < m then st.1 a c / u_norm else st.1 a c) else st.1
       let doFlip := match (List.range m).find? fun t =>
           if EPSILON < |U1 t j| then true else false with
         | some t => if 0 < U1 t j then false else true
         | none => false
       if doFlip then -U1 i j else U1 i j) := by
  unfold normSignStep
  dsimp only
  split_ifs <;> simp [hi]

/-- The column `j` of `V` after the normalisation/sign iteration for
column `j`: scaled by the removed norm (when above `EPSILON`) and negated
when the sign scan (over the normalised `U`) flips. -/
theorem normSignStep_V_self (m n : ℕ) (st : Mat × (ℕ → ℚ) × Mat) (j i : ℕ) (hi : i < n) :
    (normSignStep m n st j).2.2 i j =
      (let u_norm := Rat.sqrt (∑ t ∈ Finset.range m, st.1 t j * st.1 t j)
       let U1 : Mat := if EPSILON < u_norm then
           (fun a c => if c = j ∧ a < m then st.1 a c / u_norm else st.1 a c) else st.1
       let v_norm := Rat.sqrt (∑ t ∈ Finset.range n, st.2.2 t j * st.2.2 t j)
       let V1 : Mat := if EPSILON < v_norm then
           (fun a c => if c = j ∧ a < n then st.2.2 a c / v_norm else st.2.2 a c) else st.2.2
       let doFlip := match (List.range m).find? fun t =>
           if EPSILON < |U1 t j| then true else false with
         | some t => if 0 < U1 t j then false else true
         | none => false
       if doFlip then -V1 i j else V1 i j) := by
  unfold normSignStep
  dsimp only
  split_ifs <;> simp [hi]

/-- `EPSILON` is below 1. -/
theorem eps_lt_one : EPSILON < (1 : ℚ) := by norm_num [EPSILON]

/-- When both removed column norms are exactly 1, the normalisation step
leaves the singular value `S[j]` unchanged. -/
theorem normSignStep_S_self_unit (m n : ℕ) (st : Mat × (ℕ → ℚ) × Mat) (j : ℕ)
    (hu : Rat.sqrt (∑ t ∈ Finset.range m, st.1 t j * st.1 t j) = 1)
    (hv : Rat.sqrt (∑ t ∈ Finset.range n, st.2.2 t j * st.2.2 t j) = 1) :
    (normSignStep m n st j).2.1 j = st.2.1 j := by
  rw [normSignStep_S_self]
  dsimp only
  rw [hu, hv, if_pos eps_lt_one, if_pos eps_lt_one]
  ring

/-- When the `U` column norm is exactly 1 and the first entry of magnitude
above `EPSILON` (at index `t0`) is positive, the normalisation step leaves
the `U` column unchanged. -/
theorem normSignStep_U_self_unit (m n : ℕ) (st : Mat × (ℕ → ℚ) × Mat) (j i t0 : ℕ)
    (hi : i < m)
    (hu : Rat.sqrt (∑ t ∈ Finset.range m, st.1 t j * st.1 t j) = 1)
    (hfind : (List.range m).find? (fun t => if EPSILON < |st.1 t j| then true else false) =
      some t0)
    (hpos : 0 < st.1 t0 j) :
    (normSignStep m n st j).1 i j = st.1 i j := by
  rw [normSignStep_U_self m n st j i hi]
  dsimp only
  rw [hu, if_pos eps_lt_one]
  have hU1 : ∀ a, (if a < m then st.1 a j / 1 else st.1 a j) = st.1 a j := by
    intro a
    split_ifs <;> simp
  simp only [eq_self_iff_true, true_and, hU1]
  rw [hfind]
  dsimp only
  rw [if_pos hpos]
  simp

/-- When both column norms are exactly 1 and the sign scan finds a
positive leading entry, the normalisation step leaves the `V` column
unchanged. -/
theorem normSignStep_V_self_unit (m n : ℕ) (st : Mat × (ℕ → ℚ) × Mat) (j i t0 : ℕ)
    (hi : i < n)
    (hu : Rat.sqrt (∑ t ∈ Finset.range m, st.1 t j * st.1 t j) = 1)
    (hv : Rat.sqrt (∑ t ∈ Finset.range n, st.2.2 t j * st.2.2 t j) = 1)
    (hfind : (List.range m).find? (fun t => if EPSILON < |st.1 t j| then true else false) =
      some t0)
    (hpos : 0 < st.1 t0 j) :
    (normSignStep m n st j).2.2 i j = st.2.2 i j := by
  rw [normSignStep_V_self m n st j i hi]
  dsimp only
  rw [hu, hv, if_pos eps_lt_one, if_pos eps_lt_one]
  have hU1 : ∀ a, (if a < m then st.1 a j / 1 else st.1 a j) = st.1 a j := by
    intro a
    split_ifs <;> simp
  have hV1 : ∀ a, (if a < n then st.2.2 a j / 1 else st.2.2 a j) = st.2.2 a j := by
    intro a
    split_ifs <;> simp
  simp only [eq_self_iff_true, true_and, hU1, hV1]
  rw [hfind]
  dsimp only
  rw [if_pos hpos]
  simp

/-- List lookup in the all-zero 2×2 byte buffer. -/
theorem getD_zero4 : ∀ k : ℕ, ([0, 0, 0, 0] : List ℕ).getD k 0 = 0 := by
  intro k
  match k with
  | 0 => rfl
  | 1 => rfl
  | 2 => rfl
  | 3 => rfl
  | k + 4 => rfl

/-- List lookup in the all-zero 2×2 byte buffer, `getElem?` form. -/
theorem getElem_zero4 : ∀ k : ℕ, (([0, 0, 0, 0] : List ℕ)[k]?).getD 0 = 0 := by
  intro k
  match k with
  | 0 => rfl
  | 1 => rfl
  | 2 => rfl
  | 3 => rfl
  | k + 4 => rfl

/-- The channel matrix of the all-zero 2×2 grayscale image. -/
theorem channelMatrix_zero :
    channelMatrix (ImageMatrix.mk 2 2 1 [0, 0, 0, 0]) 0 = fun _ _ => (0 : ℚ) := by
  funext y x
  simp [channelMatrix, px, getD_zero4, getElem_zero4]

/-- Every singular value that `jacobiSVD` produces for the all-zero 2×2
channel is 0: the covariance is the zero matrix, the loop converges
immediately, the square roots are 0, the sort does nothing and the
normalisation multiplies 0 by column norms. -/
theorem jacobiSVD_zero_S (ft : FloatTrig) :
    ∀ i, (jacobiSVD ft (channelMatrix (ImageMatrix.mk 2 2 1 [0, 0, 0, 0]) 0) 2 2).2.1 i = 0 := by
  intro i
  have hcov : covarianceOf (channelMatrix (ImageMatrix.mk 2 2 1 [0, 0, 0, 0]) 0) 2 2 =
      fun _ _ => (0 : ℚ) := by
    funext a b
    rw [covarianceOf, channelMatrix_zero]
    simp [calculateATA, multiplyMatrices2D]
  have hloop : svdLoopResult ft (channelMatrix (ImageMatrix.mk 2 2 1 [0, 0, 0, 0]) 0) 2 2 =
      (fun _ _ => (0 : ℚ), initIdentityMatrix 2) := by
    unfold svdLoopResult
    rw [show eigenDim 2 2 = 2 from rfl, hcov]
    rw [show MAX_ITERATIONS = 149 + 1 from rfl]
    rw [jacobiLoop_converged ft 2 149 _ (by
      rw [findLargestOffDiagonal_two]
      norm_num [EPSILON])]
  have hS1 : svdRawS ft (channelMatrix (ImageMatrix.mk 2 2 1 [0, 0, 0, 0]) 0) 2 2 =
      fun _ => (0 : ℚ) := by
    funext k
    unfold svdRawS
    rw [hloop]
    by_cases hk : k < minDim 2 2 <;> simp [hk, ratSqrt_zero]
  have hsort : svdSortedPair ft (channelMatrix (ImageMatrix.mk 2 2 1 [0, 0, 0, 0]) 0) 2 2 =
      (fun _ => (0 : ℚ), initIdentityMatrix 2) := by
    unfold svdSortedPair sortSingularValues
    rw [hloop, hS1]
    rw [show eigenDim 2 2 = 2 from rfl, show minDim 2 2 = 2 from rfl]
    rw [show List.range (2 - 1) = [0] from rfl]
    simp only [List.foldl_cons, List.foldl_nil]
    unfold sortInner
    rw [show (List.range 2).filter (fun j => 0 < j) = [1] from rfl]
    simp only [List.foldl_cons, List.foldl_nil]
    unfold sortPairStep
    norm_num
  show ((List.range (minDim 2 2)).foldl (normSignStep 2 2)
    (svdU ft (channelMatrix (ImageMatrix.mk 2 2 1 [0, 0, 0, 0]) 0) 2 2,
      (svdSortedPair ft (channelMatrix (ImageMatrix.mk 2 2 1 [0, 0, 0, 0]) 0) 2 2).1,
      svdV ft (channelMatrix (ImageMatrix.mk 2 2 1 [0, 0, 0, 0]) 0) 2 2)).2.1 i = 0
  rw [show minDim 2 2 = 2 from rfl, show List.range 2 = [0, 1] from rfl]
  simp only [List.foldl_cons, List.foldl_nil]
  by_cases hi0 : i = 0
  · subst hi0
    rw [normSignStep_S_other 2 2 _ 1 0 (by omega), normSignStep_S_self]
    dsimp only
    rw [show (svdU ft (channelMatrix (ImageMatrix.mk 2 2 1 [0, 0, 0, 0]) 0) 2 2,
      (svdSortedPair ft (channelMatrix (ImageMatrix.mk 2 2 1 [0, 0, 0, 0]) 0) 2 2).1,
      svdV ft (channelMatrix (ImageMatrix.mk 2 2 1 [0, 0, 0, 0]) 0) 2 2).2.1 =
        (svdSortedPair ft (channelMatrix (ImageMatrix.mk 2 2 1 [0, 0, 0, 0]) 0) 2 2).1 from rfl]
    rw [hsort]
    split_ifs <;> simp
  by_cases hi1 : i = 1
  · subst hi1
    rw [normSignStep_S_self]
    dsimp only
    rw [normSignStep_S_other 2 2 _ 0 1 (by omega)]
    rw [show (svdU ft (channelMatrix (ImageMatrix.mk 2 2 1 [0, 0, 0, 0]) 0) 2 2,
      (svdSortedPair ft (channelMatrix (ImageMatrix.mk 2 2 1 [0, 0, 0, 0]) 0) 2 2).1,
      svdV ft (channelMatrix (ImageMatrix.mk 2 2 1 [0, 0, 0, 0]) 0) 2 2).2.1 =
        (svdSortedPair ft (channelMatrix (ImageMatrix.mk 2 2 1 [0, 0, 0, 0]) 0) 2 2).1 from rfl]
    rw [hsort]
    split_ifs <;> simp
  · rw [normSignStep_S_other 2 2 _ 1 i hi1, normSignStep_S_other 2 2 _ 0 i hi0]
    rw [show (svdU ft (channelMatrix (ImageMatrix.mk 2 2 1 [0, 0, 0, 0]) 0) 2 2,
      (svdSortedPair ft (channelMatrix (ImageMatrix.mk 2 2 1 [0, 0, 0, 0]) 0) 2 2).1,
      svdV ft (channelMatrix (ImageMatrix.mk 2 2 1 [0, 0, 0, 0]) 0) 2 2).2.1 =
        (svdSortedPair ft (channelMatrix (ImageMatrix.mk 2 2 1 [0, 0, 0, 0]) 0) 2 2).1 from rfl]
    rw [hsort]

/-- `compressSVD` on the all-zero 2×2 grayscale image returns the same
image, for every ratio whatsoever: all singular values are 0, so the
`valid_svd` check fails and every channel is copied verbatim. -/
theorem compressSVD_zero (ft : FloatTrig) (r : ℚ) :
    compressSVD ft (ImageMatrix.mk 2 2 1 [0, 0, 0, 0]) r =
      some (ImageMatrix.mk 2 2 1 [0, 0, 0, 0]) := by
  have hval : ∀ k, validSVD
      (svdOfChannel ft (ImageMatrix.mk 2 2 1 [0, 0, 0, 0]) 0).2.1 k = false := by
    intro k
    unfold validSVD
    simp only [List.any_eq_false]
    intro x _
    have hS : (svdOfChannel ft (ImageMatrix.mk 2 2 1 [0, 0, 0, 0]) 0).2.1 x = 0 :=
      jacobiSVD_zero_S ft x
    rw [hS]
    norm_num
  have hpix : ∀ y x, compressedPixel ft (ImageMatrix.mk 2 2 1 [0, 0, 0, 0])
      (computeK (maxRankOf (ImageMatrix.mk 2 2 1 [0, 0, 0, 0])) r) 0 y x = 0 := by
    intro y x
    simp only [compressedPixel]
    rw [hval]
    simp [px, getD_zero4, getElem_zero4]
  unfold compressSVD
  simp only [Option.some.injEq, ImageMatrix.mk.injEq, true_and]
  show (List.range (2 * 2 * 1)).map (fun idx =>
    compressedPixel ft (ImageMatrix.mk 2 2 1 [0, 0, 0, 0])
      (computeK (maxRankOf (ImageMatrix.mk 2 2 1 [0, 0, 0, 0])) r)
      (idx % 1) (idx / (2 * 1)) (idx / 1 % 2)) = [0, 0, 0, 0]
  rw [show List.range (2 * 2 * 1) = [0, 1, 2, 3] from rfl]
  simp [hpix, Nat.mod_one]

set_option maxRecDepth 10000 in
/-- Full evaluation of `jacobiSVD` on the diagonal 2×2 channel
`[[1, 0], [0, 2]]`: the covariance `diag(1, 4)` is already diagonal, so the
Jacobi loop stops before any rotation; `S = [1, 2]` is sorted into
`[2, 1]` swapping the eigenvector columns; the derived factors are
`U = V = [[0, 1], [1, 0]]`, unchanged by the unit-norm normalisation and
the positive-sign scan. -/
theorem jacobiSVD_diag_vals (ft : FloatTrig) :
    (jacobiSVD ft (channelMatrix (ImageMatrix.mk 2 2 1 [1, 0, 0, 2]) 0) 2 2).2.1 0 = 2 ∧
    (jacobiSVD ft (channelMatrix (ImageMatrix.mk 2 2 1 [1, 0, 0, 2]) 0) 2 2).2.1 1 = 1 ∧
    (jacobiSVD ft (channelMatrix (ImageMatrix.mk 2 2 1 [1, 0, 0, 2]) 0) 2 2).1 0 0 = 0 ∧
    (jacobiSVD ft (channelMatrix (ImageMatrix.mk 2 2 1 [1, 0, 0, 2]) 0) 2 2).1 1 0 = 1 ∧
    (jacobiSVD ft (channelMatrix (ImageMatrix.mk 2 2 1 [1, 0, 0, 2]) 0) 2 2).1 0 1 = 1 ∧
    (jacobiSVD ft (channelMatrix (ImageMatrix.mk 2 2 1 [1, 0, 0, 2]) 0) 2 2).1 1 1 = 0 ∧
    (jacobiSVD ft (channelMatrix (ImageMatrix.mk 2 2 1 [1, 0, 0, 2]) 0) 2 2).2.2 0 0 = 0 ∧
    (jacobiSVD ft (channelMatrix (ImageMatrix.mk 2 2 1 [1, 0, 0, 2]) 0) 2 2).2.2 1 0 = 1 ∧
    (jacobiSVD ft (channelMatrix (ImageMatrix.mk 2 2 1 [1, 0, 0, 2]) 0) 2 2).2.2 0 1 = 1 ∧
    (jacobiSVD ft (channelMatrix (ImageMatrix.mk 2 2 1 [1, 0, 0, 2]) 0) 2 2).2.2 1 1 = 0 := by
  set Ad := channelMatrix (ImageMatrix.mk 2 2 1 [1, 0, 0, 2]) 0 with hAdef
  have hA00 : Ad 0 0 = 1 := by rw [hAdef]; norm_num [channelMatrix, px]
  have hA01 : Ad 0 1 = 0 := by rw [hAdef]; norm_num [channelMatrix, px]
  have hA10 : Ad 1 0 = 0 := by rw [hAdef]; norm_num [channelMatrix, px]
  have hA11 : Ad 1 1 = 2 := by rw [hAdef]; norm_num [channelMatrix, px]
  have hcov00 : covarianceOf Ad 2 2 0 0 = 1 := by
    norm_num [covarianceOf, calculateATA, multiplyMatrices2D, transposeMatrix,
      Finset.sum_range_succ, hA00, hA10]
  have hcov01 : covarianceOf Ad 2 2 0 1 = 0 := by
    norm_num [covarianceOf, calculateATA, multiplyMatrices2D, transposeMatrix,
      Finset.sum_range_succ, hA00, hA10, hA01, hA11]
  have hcov11 : covarianceOf Ad 2 2 1 1 = 4 := by
    norm_num [covarianceOf, calculateATA, multiplyMatrices2D, transposeMatrix,
      Finset.sum_range_succ, hA01, hA11]
  have hloopD : svdLoopResult ft Ad 2 2 = (covarianceOf Ad 2 2, initIdentityMatrix 2) := by
    unfold svdLoopResult
    rw [show eigenDim 2 2 = 2 from rfl]
    rw [show MAX_ITERATIONS = 149 + 1 from rfl]
    rw [jacobiLoop_converged ft 2 149 _ (by
      rw [findLargestOffDiagonal_two]
      show |covarianceOf Ad 2 2 0 1| < EPSILON
      rw [hcov01]
      norm_num [EPSILON])]
  have hS0 : svdRawS ft Ad 2 2 0 = 1 := by
    unfold svdRawS
    rw [show minDim 2 2 = 2 from rfl, if_pos (by norm_num : (0 : ℕ) < 2), hloopD]
    show Rat.sqrt |covarianceOf Ad 2 2 0 0| = 1
    rw [hcov00, abs_one, ratSqrt_one]
  have hS1r : svdRawS ft Ad 2 2 1 = 2 := by
    unfold svdRawS
    rw [show minDim 2 2 = 2 from rfl, if_pos (by norm_num : (1 : ℕ) < 2), hloopD]
    show Rat.sqrt |covarianceOf Ad 2 2 1 1| = 2
    rw [hcov11, show |(4 : ℚ)| = 4 by norm_num, ratSqrt_four]
  have hsortD : svdSortedPair ft Ad 2 2 =
      ((fun k => svdRawS ft Ad 2 2 (Equiv.swap 0 1 k)),
        (fun r c => if r < 2 then (svdLoopResult ft Ad 2 2).2 r (Equiv.swap 0 1 c)
          else (svdLoopResult ft Ad 2 2).2 r c)) := by
    unfold svdSortedPair sortSingularValues
    rw [show eigenDim 2 2 = 2 from rfl, show minDim 2 2 = 2 from rfl]
    rw [show List.range (2 - 1) = [0] from rfl]
    simp only [List.foldl_cons, List.foldl_nil]
    unfold sortInner
    rw [show (List.range 2).filter (fun j => 0 < j) = [1] from rfl]
    simp only [List.foldl_cons, List.foldl_nil]
    unfold sortPairStep
    rw [if_pos (show (svdRawS ft Ad 2 2, (svdLoopResult ft Ad 2 2).2).1 0 <
        (svdRawS ft Ad 2 2, (svdLoopResult ft Ad 2 2).2).1 1 from by
      show svdRawS ft Ad 2 2 0 < svdRawS ft Ad 2 2 1
      rw [hS0, hS1r]
      norm_num)]
  have hsS0 : (svdSortedPair ft Ad 2 2).1 0 = 2 := by
    rw [hsortD]
    show svdRawS ft Ad 2 2 (Equiv.swap 0 1 0) = 2
    rw [Equiv.swap_apply_left]
    exact hS1r
  have hsS1 : (svdSortedPair ft Ad 2 2).1 1 = 1 := by
    rw [hsortD]
    show svdRawS ft Ad 2 2 (Equiv.swap 0 1 1) = 1
    rw [Equiv.swap_apply_right]
    exact hS0
  have hsE : ∀ r c, r < 2 → c < 2 →
      (svdSortedPair ft Ad 2 2).2 r c = initIdentityMatrix 2 r (Equiv.swap 0 1 c) := by
    intro r c hr _
    rw [hsortD]
    show (if r < 2 then (svdLoopResult ft Ad 2 2).2 r (Equiv.swap 0 1 c)
      else (svdLoopResult ft Ad 2 2).2 r c) = _
    rw [if_pos hr, hloopD]
  have hsE00 : (svdSortedPair ft Ad 2 2).2 0 0 = 0 := by
    rw [hsE 0 0 (by norm_num) (by norm_num)]
    norm_num [Equiv.swap_apply_left, initIdentityMatrix]
  have hsE10 : (svdSortedPair ft Ad 2 2).2 1 0 = 1 := by
    rw [hsE 1 0 (by norm_num) (by norm_num)]
    norm_num [Equiv.swap_apply_left, initIdentityMatrix]
  have hsE01 : (svdSortedPair ft Ad 2 2).2 0 1 = 1 := by
    rw [hsE 0 1 (by norm_num) (by norm_num)]
    norm_num [Equiv.swap_apply_right, initIdentityMatrix]
  have hsE11 : (svdSortedPair ft Ad 2 2).2 1 1 = 0 := by
    rw [hsE 1 1 (by norm_num) (by norm_num)]
    norm_num [Equiv.swap_apply_right, initIdentityMatrix]
  have hV : ∀ i j, i < 2 → j < 2 →
      svdV ft Ad 2 2 i j = (svdSortedPair ft Ad 2 2).2 i j := by
    intro i j hi hj
    unfold svdV
    rw [if_pos (le_refl 2)]
    rw [show minDim 2 2 = 2 from rfl]
    rw [if_pos ⟨hi, hj⟩]
  have hV00 : svdV ft Ad 2 2 0 0 = 0 := by
    rw [hV 0 0 (by norm_num) (by norm_num), hsE00]
  have hV10 : svdV ft Ad 2 2 1 0 = 1 := by
    rw [hV 1 0 (by norm_num) (by norm_num), hsE10]
  have hV01 : svdV ft Ad 2 2 0 1 = 1 := by
    rw [hV 0 1 (by norm_num) (by norm_num), hsE01]
  have hV11 : svdV ft Ad 2 2 1 1 = 0 := by
    rw [hV 1 1 (by norm_num) (by norm_num), hsE11]
  have hU : ∀ i j, i < 2 → j < 2 →
      svdU ft Ad 2 2 i j = ∑ k ∈ Finset.range 2, Ad i k *
        (if EPSILON < (svdSortedPair ft Ad 2 2).1 j then
          svdV ft Ad 2 2 k j / (svdSortedPair ft Ad 2 2).1 j
        else 0) := by
    intro i j hi hj
    unfold svdU
    rw [if_pos (le_refl 2)]
    rw [show minDim 2 2 = 2 from rfl]
    rw [if_pos (show i < 2 ∧ j < 2 from ⟨hi, hj⟩)]
    unfold multiplyMatrices2D
    apply Finset.sum_congr rfl
    intro k hk
    show Ad i k * (if k < 2 ∧ j < 2 then
      (if EPSILON < (svdSortedPair ft Ad 2 2).1 j then
        svdV ft Ad 2 2 k j / (svdSortedPair ft Ad 2 2).1 j else 0) else 0) =
      Ad i k * (if EPSILON < (svdSortedPair ft Ad 2 2).1 j then
        svdV ft Ad 2 2 k j / (svdSortedPair ft Ad 2 2).1 j else 0)
    rw [if_pos (show k < 2 ∧ j < 2 from ⟨Finset.mem_range.mp hk, hj⟩)]
  have hU00 : svdU ft Ad 2 2 0 0 = 0 := by
    rw [hU 0 0 (by norm_num) (by norm_num)]
    norm_num [Finset.sum_range_succ, hA00, hA01, hsS0, hV00, hV10, EPSILON]
  have hU10 : svdU ft Ad 2 2 1 0 = 1 := by
    rw [hU 1 0 (by norm_num) (by norm_num)]
    norm_num [Finset.sum_range_succ, hA10, hA11, hsS0, hV00, hV10, EPSILON]
  have hU01 : svdU ft Ad 2 2 0 1 = 1 := by
    rw [hU 0 1 (by norm_num) (by norm_num)]
    norm_num [Finset.sum_range_succ, hA00, hA01, hsS1, hV01, hV11, EPSILON]
  have hU11 : svdU ft Ad 2 2 1 1 = 0 := by
    rw [hU 1 1 (by norm_num) (by norm_num)]
    norm_num [Finset.sum_range_succ, hA10, hA11, hsS1, hV01, hV11, EPSILON]
  have hr2 : List.range 2 = [0, 1] := rfl
  have hU1col : ∀ t, (normSignStep 2 2
      (svdU ft Ad 2 2, (svdSortedPair ft Ad 2 2).1, svdV ft Ad 2 2) 0).1 t 1 =
        svdU ft Ad 2 2 t 1 :=
    fun t => normSignStep_U_other 2 2 _ 0 t 1 (by omega)
  have hV1col : ∀ t, (normSignStep 2 2
      (svdU ft Ad 2 2, (svdSortedPair ft Ad 2 2).1, svdV ft Ad 2 2) 0).2.2 t 1 =
        svdV ft Ad 2 2 t 1 :=
    fun t => normSignStep_V_other 2 2 _ 0 t 1 (by omega)
  have hS1col : (normSignStep 2 2
      (svdU ft Ad 2 2, (svdSortedPair ft Ad 2 2).1, svdV ft Ad 2 2) 0).2.1 1 =
        (svdSortedPair ft Ad 2 2).1 1 :=
    normSignStep_S_other 2 2 _ 0 1 (by omega)
  have hnormU0 : Rat.sqrt (∑ t ∈ Finset.range 2,
      (svdU ft Ad 2 2, (svdSortedPair ft Ad 2 2).1, svdV ft Ad 2 2).1 t 0 *
        (svdU ft Ad 2 2, (svdSortedPair ft Ad 2 2).1, svdV ft Ad 2 2).1 t 0) = 1 := by
    rw [Finset.sum_range_succ, Finset.sum_range_succ, Finset.sum_range_zero]
    show Rat.sqrt (0 + svdU ft Ad 2 2 0 0 * svdU ft Ad 2 2 0 0 +
      svdU ft Ad 2 2 1 0 * svdU ft Ad 2 2 1 0) = 1
    rw [hU00, hU10]
    norm_num [ratSqrt_one]
  have hnormV0 : Rat.sqrt (∑ t ∈ Finset.range 2,
      (svdU ft Ad 2 2, (svdSortedPair ft Ad 2 2).1, svdV ft Ad 2 2).2.2 t 0 *
        (svdU ft Ad 2 2, (svdSortedPair ft Ad 2 2).1, svdV ft Ad 2 2).2.2 t 0) = 1 := by
    rw [Finset.sum_range_succ, Finset.sum_range_succ, Finset.sum_range_zero]
    show Rat.sqrt (0 + svdV ft Ad 2 2 0 0 * svdV ft Ad 2 2 0 0 +
      svdV ft Ad 2 2 1 0 * svdV ft Ad 2 2 1 0) = 1
    rw [hV00, hV10]
    norm_num [ratSqrt_one]
  have hfind0 : (List.range 2).find? (fun t =>
      if EPSILON < |(svdU ft Ad 2 2, (svdSortedPair ft Ad 2 2).1, svdV ft Ad 2 2).1 t 0|
      then true else false) = some 1 := by
    rw [hr2]
    rw [List.find?_cons_of_neg _ (by
      show (if EPSILON < |svdU ft Ad 2 2 0 0| then true else false) ≠ true
      rw [hU00]
      norm_num [EPSILON])]
    rw [List.find?_cons_of_pos _ (by
      show (if EPSILON < |svdU ft Ad 2 2 1 0| then true else false) = true
      rw [hU10]
      norm_num [EPSILON])]
  have hpos0 : 0 < (svdU ft Ad 2 2, (svdSortedPair ft Ad 2 2).1, svdV ft Ad 2 2).1 1 0 := by
    show (0 : ℚ) < svdU ft Ad 2 2 1 0
    rw [hU10]
    norm_num
  have hnormU1 : Rat.sqrt (∑ t ∈ Finset.range 2,
      (normSignStep 2 2 (svdU ft Ad 2 2, (svdSortedPair ft Ad 2 2).1, svdV ft Ad 2 2) 0).1 t 1 *
        (normSignStep 2 2 (svdU ft Ad 2 2, (svdSortedPair ft Ad 2 2).1, svdV ft Ad 2 2) 0).1 t 1)
      = 1 := by
    rw [Finset.sum_range_succ, Finset.sum_range_succ, Finset.sum_range_zero]
    rw [hU1col 0, hU1col 1, hU01, hU11]
    norm_num [ratSqrt_one]
  have hnormV1 : Rat.sqrt (∑ t ∈ Finset.range 2,
      (normSignStep 2 2 (svdU ft Ad 2 2, (svdSortedPair ft Ad 2 2).1, svdV ft Ad 2 2) 0).2.2 t 1 *
        (normSignStep 2 2 (svdU ft Ad 2 2, (svdSortedPair ft Ad 2 2).1, svdV ft Ad 2 2) 0).2.2 t 1)
      = 1 := by
    rw [Finset.sum_range_succ, Finset.sum_range_succ, Finset.sum_range_zero]
    rw [hV1col 0, hV1col 1, hV01, hV11]
    norm_num [ratSqrt_one]
  have hfind1 : (List.range 2).find? (fun t =>
      if EPSILON <
        |(normSignStep 2 2 (svdU ft Ad 2 2, (svdSortedPair ft Ad 2 2).1, svdV ft Ad 2 2) 0).1 t 1|
      then true else false) = some 0 := by
    rw [hr2]
    rw [List.find?_cons_of_pos _ (by
      show (if EPSILON <
          |(normSignStep 2 2 (svdU ft Ad 2 2, (svdSortedPair ft Ad 2 2).1, svdV ft Ad 2 2) 0).1 0 1|
        then true else false) = true
      rw [hU1col 0, hU01]
      norm_num [EPSILON])]
  have hpos1 : 0 <
      (normSignStep 2 2 (svdU ft Ad 2 2, (svdSortedPair ft Ad 2 2).1, svdV ft Ad 2 2) 0).1 0 1 := by
    rw [hU1col 0, hU01]
    norm_num
  have hS0fin : (jacobiSVD ft Ad 2 2).2.1 0 = 2 := by
    unfold jacobiSVD
    rw [show minDim 2 2 = 2 from rfl, hr2]
    simp only [List.foldl_cons, List.foldl_nil]
    rw [normSignStep_S_other 2 2 _ 1 0 (by omega)]
    rw [normSignStep_S_self_unit 2 2 _ 0 hnormU0 hnormV0]
    exact hsS0
  have hS1fin : (jacobiSVD ft Ad 2 2).2.1 1 = 1 := by
    unfold jacobiSVD
    rw [show minDim 2 2 = 2 from rfl, hr2]
    simp only [List.foldl_cons, List.foldl_nil]
    rw [normSignStep_S_self_unit 2 2 _ 1 hnormU1 hnormV1]
    rw [hS1col]
    exact hsS1
  have hUfin00 : (jacobiSVD ft Ad 2 2).1 0 0 = 0 := by
    unfold jacobiSVD
    rw [show minDim 2 2 = 2 from rfl, hr2]
    simp only [List.foldl_cons, List.foldl_nil]
    rw [normSignStep_U_other 2 2 _ 1 0 0 (by omega)]
    rw [normSignStep_U_self_unit 2 2 _ 0 0 1 (by omega) hnormU0 hfind0 hpos0]
    exact hU00
  have hUfin10 : (jacobiSVD ft Ad 2 2).1 1 0 = 1 := by
    unfold jacobiSVD
    rw [show minDim 2 2 = 2 from rfl, hr2]
    simp only [List.foldl_cons, List.foldl_nil]
    rw [normSignStep_U_other 2 2 _ 1 1 0 (by omega)]
    rw [normSignStep_U_self_unit 2 2 _ 0 1 1 (by omega) hnormU0 hfind0 hpos0]
    exact hU10
  have hUfin01 : (jacobiSVD ft Ad 2 2).1 0 1 = 1 := by
    unfold jacobiSVD
    rw [show minDim 2 2 = 2 from rfl, hr2]
    simp only [List.foldl_cons, List.foldl_nil]
    rw [normSignStep_U_self_unit 2 2 _ 1 0 0 (by omega) hnormU1 hfind1 hpos1]
    rw [hU1col 0]
    exact hU01
  have hUfin11 : (jacobiSVD ft Ad 2 2).1 1 1 = 0 := by
    unfold jacobiSVD
    rw [show minDim 2 2 = 2 from rfl, hr2]
    simp only [List.foldl_cons, List.foldl_nil]
    rw [normSignStep_U_self_unit 2 2 _ 1 1 0 (by omega) hnormU1 hfind1 hpos1]
    rw [hU1col 1]
    exact hU11
  have hVfin00 : (jacobiSVD ft Ad 2 2).2.2 0 0 = 0 := by
    unfold jacobiSVD
    rw [show minDim 2 2 = 2 from rfl, hr2]
    simp only [List.foldl_cons, List.foldl_nil]
    rw [normSignStep_V_other 2 2 _ 1 0 0 (by omega)]
    rw [normSignStep_V_self_unit 2 2 _ 0 0 1 (by omega) hnormU0 hnormV0 hfind0 hpos0]
    exact hV00
  have hVfin10 : (jacobiSVD ft Ad 2 2).2.2 1 0 = 1 := by
    unfold jacobiSVD
    rw [show minDim 2 2 = 2 from rfl, hr2]
    simp only [List.foldl_cons, List.foldl_nil]
    rw [normSignStep_V_other 2 2 _ 1 1 0 (by omega)]
    rw [normSignStep_V_self_unit 2 2 _ 0 1 1 (by omega) hnormU0 hnormV0 hfind0 hpos0]
    exact hV10
  have hVfin01 : (jacobiSVD ft Ad 2 2).2.2 0 1 = 1 := by
    unfold jacobiSVD
    rw [show minDim 2 2 = 2 from rfl, hr2]
    simp only [List.foldl_cons, List.foldl_nil]
    rw [normSignStep_V_self_unit 2 2 _ 1 0 0 (by omega) hnormU1 hnormV1 hfind1 hpos1]
    rw [hV1col 0]
    exact hV01
  have hVfin11 : (jacobiSVD ft Ad 2 2).2.2 1 1 = 0 := by
    unfold jacobiSVD
    rw [show minDim 2 2 = 2 from rfl, hr2]
    simp only [List.foldl_cons, List.foldl_nil]
    rw [normSignStep_V_self_unit 2 2 _ 1 1 0 (by omega) hnormU1 hnormV1 hfind1 hpos1]
    rw [hV1col 1]
    exact hV11
  exact ⟨hS0fin, hS1fin, hUfin00, hUfin10, hUfin01, hUfin11, hVfin00, hVfin10, hVfin01,
    hVfin11⟩


/-- `compressSVD` on the diagonal 2×2 grayscale image `[[1, 0], [0, 2]]`
with any ratio for which `k = 1`: the rank-1 reconstruction
`S[0]·U[:,0]·V[:,0]ᵀ` keeps only the bright corner, producing
`[[0, 0], [0, 2]]`. -/
theorem compressSVD_diag (ft : FloatTrig) (r : ℚ) (hk : computeK 2 r = 1) :
    compressSVD ft (ImageMatrix.mk 2 2 1 [1, 0, 0, 2]) r =
      some (ImageMatrix.mk 2 2 1 [0, 0, 0, 2]) := by
  obtain ⟨hS0, hS1, hU00, hU10, hU01, hU11, hV00, hV10, hV01, hV11⟩ := jacobiSVD_diag_vals ft
  have hmr : maxRankOf (ImageMatrix.mk 2 2 1 [1, 0, 0, 2]) = 2 := rfl
  have hval : validSVD (svdOfChannel ft (ImageMatrix.mk 2 2 1 [1, 0, 0, 2]) 0).2.1 1 = true := by
    unfold validSVD
    rw [show List.range 1 = [0] from rfl]
    simp only [List.any_cons, List.any_nil, Bool.or_false]
    show (if (1 : ℚ) / 1000000 <
        (svdOfChannel ft (ImageMatrix.mk 2 2 1 [1, 0, 0, 2]) 0).2.1 0 then true else false) = true
    have h2 : (svdOfChannel ft (ImageMatrix.mk 2 2 1 [1, 0, 0, 2]) 0).2.1 0 = 2 := hS0
    rw [h2]
    norm_num
  have hpix : ∀ y x, y < 2 → x < 2 →
      compressedPixel ft (ImageMatrix.mk 2 2 1 [1, 0, 0, 2])
        (computeK (maxRankOf (ImageMatrix.mk 2 2 1 [1, 0, 0, 2])) r) 0 y x =
      (if y = 1 ∧ x = 1 then 2 else 0) := by
    intro y x hy hx
    simp only [compressedPixel]
    rw [hmr, hk, hval]
    simp only [if_true]
    rw [Finset.sum_range_one]
    have hS0' : (svdOfChannel ft (ImageMatrix.mk 2 2 1 [1, 0, 0, 2]) 0).2.1 0 = 2 := hS0
    interval_cases y <;> interval_cases x
    · rw [show (svdOfChannel ft (ImageMatrix.mk 2 2 1 [1, 0, 0, 2]) 0).1 0 0 = 0 from hU00,
        hS0', show (svdOfChannel ft (ImageMatrix.mk 2 2 1 [1, 0, 0, 2]) 0).2.2 0 0 = 0 from hV00]
      norm_num [clip255, byteOfRat]
    · rw [show (svdOfChannel ft (ImageMatrix.mk 2 2 1 [1, 0, 0, 2]) 0).1 0 0 = 0 from hU00,
        hS0', show (svdOfChannel ft (ImageMatrix.mk 2 2 1 [1, 0, 0, 2]) 0).2.2 1 0 = 1 from hV10]
      norm_num [clip255, byteOfRat]
    · rw [show (svdOfChannel ft (ImageMatrix.mk 2 2 1 [1, 0, 0, 2]) 0).1 1 0 = 1 from hU10,
        hS0', show (svdOfChannel ft (ImageMatrix.mk 2 2 1 [1, 0, 0, 2]) 0).2.2 0 0 = 0 from hV00]
      norm_num [clip255, byteOfRat]
    · rw [show (svdOfChannel ft (ImageMatrix.mk 2 2 1 [1, 0, 0, 2]) 0).1 1 0 = 1 from hU10,
        hS0', show (svdOfChannel ft (ImageMatrix.mk 2 2 1 [1, 0, 0, 2]) 0).2.2 1 0 = 1 from hV10]
      norm_num [clip255, byteOfRat]
      show (Int.floor (2 : ℚ)).toNat = 2
      rw [show Int.floor (2 : ℚ) = 2 by norm_num]
      rfl
  unfold compressSVD
  simp only [Option.some.injEq, ImageMatrix.mk.injEq, true_and]
  show (List.range (2 * 2 * 1)).map (fun idx =>
    compressedPixel ft (ImageMatrix.mk 2 2 1 [1, 0, 0, 2])
      (computeK (maxRankOf (ImageMatrix.mk 2 2 1 [1, 0, 0, 2])) r)
      (idx % 1) (idx / (2 * 1)) (idx / 1 % 2)) = [0, 0, 0, 2]
  rw [show List.range (2 * 2 * 1) = [0, 1, 2, 3] from rfl]
  simp only [List.map_cons, List.map_nil]
  show [compressedPixel ft (ImageMatrix.mk 2 2 1 [1, 0, 0, 2])
      (computeK (maxRankOf (ImageMatrix.mk 2 2 1 [1, 0, 0, 2])) r) 0 0 0,
    compressedPixel ft (ImageMatrix.mk 2 2 1 [1, 0, 0, 2])
      (computeK (maxRankOf (ImageMatrix.mk 2 2 1 [1, 0, 0, 2])) r) 0 0 1,
    compressedPixel ft (ImageMatrix.mk 2 2 1 [1, 0, 0, 2])
      (computeK (maxRankOf (ImageMatrix.mk 2 2 1 [1, 0, 0, 2])) r) 0 1 0,
    compressedPixel ft (ImageMatrix.mk 2 2 1 [1, 0, 0, 2])
      (computeK (maxRankOf (ImageMatrix.mk 2 2 1 [1, 0, 0, 2])) r) 0 1 1] = [0, 0, 0, 2]
  rw [hpix 0 0 (by omega) (by omega), hpix 0 1 (by omega) (by omega),
    hpix 1 0 (by omega) (by omega), hpix 1 1 (by omega) (by omega)]
  norm_num



/-- C1 counterexample: ratio = 2 lies outside (0, 1], yet `compressSVD` on
a 2×2 all-zero grayscale image does not return its failure sentinel (the
C NULL, modelled `none`); it returns `some` complete same-dimension output
with a full-length data buffer — the out-of-range ratio is silently
clamped (`k = maxRank`), contradicting the claimed validation. -/
theorem compress_invalid_ratio_counterexample :
    ¬ ((0 : ℚ) < 2 ∧ (2 : ℚ) ≤ 1) ∧
    compressSVD constTrig (ImageMatrix.mk 2 2 1 [0, 0, 0, 0]) 2 =
      some (ImageMatrix.mk 2 2 1 [0, 0, 0, 0]) ∧
    (ImageMatrix.mk 2 2 1 [0, 0, 0, 0]).data.length = 2 * 2 * 1 :=
  ⟨by norm_num, compressSVD_zero constTrig 2, rfl⟩

/-- C1 (amended): `compressSVD` performs no validation of the ratio: for
every image and every ratio — inside or outside (0, 1] — it returns
`some` complete output image with the input's dimensions and a
full-length (`h·w·c`) data buffer; the retained rank is silently clamped
into `[1, maxRank]` by `computeK` instead of any failure being signalled.
(The `none` failure sentinel, modelling the C NULL result, arises only
from null input or allocation failure, neither of which the model
exhibits.) -/
theorem compressSVD_no_ratio_validation (ft : FloatTrig) (image : ImageMatrix)
    (ratioVal : ℚ) :
    ∃ out, compressSVD ft image ratioVal = some out ∧
      out.width = image.width ∧ out.height = image.height ∧
      out.channels = image.channels ∧
      out.data.length = image.height * image.width * image.channels :=
  ⟨_, rfl, rfl, rfl, rfl, by simp [buildData]⟩

/-- C2 counterexample: on the 2×2 grayscale image `[[1, 0], [0, 2]]` with
ratio 9/10 the code truncates `k = (int)(2·0.9) = 1`, while the claim's
rounding gives `k = round(1.8) = 2`.  The code's output pixel (0, 0) is
therefore 0 (rank-1 reconstruction), whereas the claim's predicted
reconstruction over the first `round`-many singular triples gives 1
there. -/
theorem compress_k_rounding_counterexample :
    computeK 2 (9 / 10) = 1 ∧
    claimK 2 (9 / 10) = 2 ∧
    compressSVD constTrig (ImageMatrix.mk 2 2 1 [1, 0, 0, 2]) (9 / 10) =
      some (ImageMatrix.mk 2 2 1 [0, 0, 0, 2]) ∧
    px (ImageMatrix.mk 2 2 1 [0, 0, 0, 2]) 0 0 0 = 0 ∧
    byteOfRat (clip255 (∑ i ∈ Finset.range (claimK 2 (9 / 10)),
      (svdOfChannel constTrig (ImageMatrix.mk 2 2 1 [1, 0, 0, 2]) 0).2.1 i *
        (svdOfChannel constTrig (ImageMatrix.mk 2 2 1 [1, 0, 0, 2]) 0).1 0 i *
        (svdOfChannel constTrig (ImageMatrix.mk 2 2 1 [1, 0, 0, 2]) 0).2.2 0 i)) = 1 := by
  have hck : computeK 2 (9 / 10) = 1 := by norm_num [computeK, ratTrunc]
  have hclk : claimK 2 (9 / 10) = 2 := by
    norm_num [claimK, round_eq]
    decide
  refine ⟨hck, hclk, compressSVD_diag constTrig (9 / 10) hck, rfl, ?_⟩
  rw [hclk]
  obtain ⟨hS0, hS1, hU00, hU10, hU01, hU11, hV00, hV10, hV01, hV11⟩ :=
    jacobiSVD_diag_vals constTrig
  rw [Finset.sum_range_succ, Finset.sum_range_one]
  rw [show (svdOfChannel constTrig (ImageMatrix.mk 2 2 1 [1, 0, 0, 2]) 0).2.1 0 = 2 from hS0,
    show (svdOfChannel constTrig (ImageMatrix.mk 2 2 1 [1, 0, 0, 2]) 0).2.1 1 = 1 from hS1,
    show (svdOfChannel constTrig (ImageMatrix.mk 2 2 1 [1, 0, 0, 2]) 0).1 0 0 = 0 from hU00,
    show (svdOfChannel constTrig (ImageMatrix.mk 2 2 1 [1, 0, 0, 2]) 0).1 0 1 = 1 from hU01,
    show (svdOfChannel constTrig (ImageMatrix.mk 2 2 1 [1, 0, 0, 2]) 0).2.2 0 0 = 0 from hV00,
    show (svdOfChannel constTrig (ImageMatrix.mk 2 2 1 [1, 0, 0, 2]) 0).2.2 0 1 = 1 from hV01]
  norm_num [clip255, byteOfRat]

/-- C2 (amended): for every image, every ratio in (0, 1] and every
in-range pixel and channel, provided the `valid_svd` check passes (some of
the first `k` singular values exceeds 1e-6), `compressSVD` reconstructs
the pixel as `Σ_{i<k} S[i]·U[y][i]·V[x][i]`, clamped to [0, 255] and
truncated to a byte, where `(U, S, V)` is the channel's decomposition and
`k = clamp(trunc(min(w,h)·ratio), 1, min(w,h))` (`computeK`) — truncation
toward zero, NOT rounding to nearest as the claim stated; when the check
fails the channel is copied instead (cf. C4). -/
theorem compressSVD_reconstruction (ft : FloatTrig) (image : ImageMatrix)
    (ratioVal : ℚ) (out : ImageMatrix) (y x c : ℕ)
    (hy : y < image.height) (hx : x < image.width) (hc : c < image.channels)
    (hr : 0 < ratioVal ∧ ratioVal ≤ 1)
    (hsome : compressSVD ft image ratioVal = some out)
    (hvalid : validSVD (svdOfChannel ft image c).2.1
      (computeK (maxRankOf image) ratioVal) = true) :
    px out y x c =
      byteOfRat (clip255 (∑ i ∈ Finset.range (computeK (maxRankOf image) ratioVal),
        (svdOfChannel ft image c).2.1 i * (svdOfChannel ft image c).1 y i *
          (svdOfChannel ft image c).2.2 x i)) := by
  simp only [compressSVD] at hsome
  obtain rfl := Option.some.inj hsome
  show (buildData image.width image.height image.channels fun y x c =>
    compressedPixel ft image (computeK (maxRankOf image) ratioVal) c y x).getD
    ((y * image.width + x) * image.channels + c) 0 = _
  rw [buildData_getD _ _ _ _ y x c hy hx hc]
  simp only [compressedPixel]
  rw [hvalid]
  simp only [if_true]
  congr 1
  congr 1
  refine Finset.sum_congr rfl ?_
  intro i _
  ring

/-- Witness for `compressSVD_reconstruction` on the diagonal 2×2 image
`[[1, 0], [0, 2]]` with ratio 1/2 at pixel (1, 1). -/
theorem compressSVD_reconstruction_witness :
    ((1 < (ImageMatrix.mk 2 2 1 [1, 0, 0, 2]).height ∧
      1 < (ImageMatrix.mk 2 2 1 [1, 0, 0, 2]).width ∧
      0 < (ImageMatrix.mk 2 2 1 [1, 0, 0, 2]).channels ∧
      ((0 : ℚ) < 1 / 2 ∧ (1 / 2 : ℚ) ≤ 1) ∧
      compressSVD constTrig (ImageMatrix.mk 2 2 1 [1, 0, 0, 2]) (1 / 2) =
        some (ImageMatrix.mk 2 2 1 [0, 0, 0, 2]) ∧
      validSVD (svdOfChannel constTrig (ImageMatrix.mk 2 2 1 [1, 0, 0, 2]) 0).2.1
        (computeK (maxRankOf (ImageMatrix.mk 2 2 1 [1, 0, 0, 2])) (1 / 2)) = true) ∧
    px (ImageMatrix.mk 2 2 1 [0, 0, 0, 2]) 1 1 0 =
      byteOfRat (clip255 (∑ i ∈ Finset.range
          (computeK (maxRankOf (ImageMatrix.mk 2 2 1 [1, 0, 0, 2])) (1 / 2)),
        (svdOfChannel constTrig (ImageMatrix.mk 2 2 1 [1, 0, 0, 2]) 0).2.1 i *
          (svdOfChannel constTrig (ImageMatrix.mk 2 2 1 [1, 0, 0, 2]) 0).1 1 i *
          (svdOfChannel constTrig (ImageMatrix.mk 2 2 1 [1, 0, 0, 2]) 0).2.2 1 i))) := by
  have hk : computeK (maxRankOf (ImageMatrix.mk 2 2 1 [1, 0, 0, 2])) (1 / 2) = 1 := by
    rw [show maxRankOf (ImageMatrix.mk 2 2 1 [1, 0, 0, 2]) = 2 from rfl]
    norm_num [computeK, ratTrunc]
  have hsome := compressSVD_diag constTrig (1 / 2) (by
    rw [show maxRankOf (ImageMatrix.mk 2 2 1 [1, 0, 0, 2]) = 2 from rfl] at hk
    exact hk)
  have hvalid : validSVD (svdOfChannel constTrig (ImageMatrix.mk 2 2 1 [1, 0, 0, 2]) 0).2.1
      (computeK (maxRankOf (ImageMatrix.mk 2 2 1 [1, 0, 0, 2])) (1 / 2)) = true := by
    rw [hk]
    unfold validSVD
    rw [show List.range 1 = [0] from rfl]
    simp only [List.any_cons, List.any_nil, Bool.or_false]
    rw [show (svdOfChannel constTrig (ImageMatrix.mk 2 2 1 [1, 0, 0, 2]) 0).2.1 0 = 2 from
      (jacobiSVD_diag_vals constTrig).1]
    norm_num
  exact ⟨⟨by decide, by decide, by decide, by norm_num, hsome, hvalid⟩,
    compressSVD_reconstruction constTrig (ImageMatrix.mk 2 2 1 [1, 0, 0, 2]) (1 / 2)
      (ImageMatrix.mk 2 2 1 [0, 0, 0, 2]) 1 1 0 (by decide) (by decide) (by decide)
      (by norm_num) hsome hvalid⟩

/-- C4: if none of the first `k` singular values of a channel's
decomposition exceeds 1e-6 (the `valid_svd` check of `compressSVD` fails),
that channel of the output is a verbatim copy of the input channel. -/
theorem compressSVD_degenerate_copies (ft : FloatTrig) (image : ImageMatrix)
    (ratioVal : ℚ) (out : ImageMatrix) (c : ℕ) (hc : c < image.channels)
    (hsome : compressSVD ft image ratioVal = some out)
    (hdeg : ∀ i < computeK (maxRankOf image) ratioVal,
      (svdOfChannel ft image c).2.1 i ≤ 1 / 1000000) :
    ∀ y, y < image.height → ∀ x, x < image.width → px out y x c = px image y x c := by
  intro y hy x hx
  simp only [compressSVD] at hsome
  obtain rfl := Option.some.inj hsome
  show (buildData image.width image.height image.channels fun y x c =>
    compressedPixel ft image (computeK (maxRankOf image) ratioVal) c y x).getD
    ((y * image.width + x) * image.channels + c) 0 = px image y x c
  rw [buildData_getD _ _ _ _ y x c hy hx hc]
  simp only [compressedPixel]
  have hval : validSVD (svdOfChannel ft image c).2.1
      (computeK (maxRankOf image) ratioVal) = false := by
    unfold validSVD
    simp only [List.any_eq_false]
    intro i hi
    rw [if_neg (not_lt.mpr (hdeg i (List.mem_range.mp hi)))]
    simp
  rw [hval]
  simp

/-- Witness for `compressSVD_degenerate_copies` on the all-zero 2×2
image with ratio 1/2: all singular values are 0 and the image is copied
verbatim. -/
theorem compressSVD_degenerate_copies_witness :
    ((0 < (ImageMatrix.mk 2 2 1 [0, 0, 0, 0]).channels ∧
      compressSVD constTrig (ImageMatrix.mk 2 2 1 [0, 0, 0, 0]) (1 / 2) =
        some (ImageMatrix.mk 2 2 1 [0, 0, 0, 0]) ∧
      (∀ i < computeK (maxRankOf (ImageMatrix.mk 2 2 1 [0, 0, 0, 0])) (1 / 2),
        (svdOfChannel constTrig (ImageMatrix.mk 2 2 1 [0, 0, 0, 0]) 0).2.1 i ≤ 1 / 1000000)) ∧
    (∀ y, y < (ImageMatrix.mk 2 2 1 [0, 0, 0, 0]).height →
      ∀ x, x < (ImageMatrix.mk 2 2 1 [0, 0, 0, 0]).width →
        px (ImageMatrix.mk 2 2 1 [0, 0, 0, 0]) y x 0 =
          px (ImageMatrix.mk 2 2 1 [0, 0, 0, 0]) y x 0)) := by
  have hsome := compressSVD_zero constTrig (1 / 2)
  have hdeg : ∀ i < computeK (maxRankOf (ImageMatrix.mk 2 2 1 [0, 0, 0, 0])) (1 / 2),
      (svdOfChannel constTrig (ImageMatrix.mk 2 2 1 [0, 0, 0, 0]) 0).2.1 i ≤ 1 / 1000000 := by
    intro i _
    have h0 : (svdOfChannel constTrig (ImageMatrix.mk 2 2 1 [0, 0, 0, 0]) 0).2.1 i = 0 :=
      jacobiSVD_zero_S constTrig i
    rw [h0]
    norm_num
  exact ⟨⟨by decide, hsome, hdeg⟩,
    compressSVD_degenerate_copies constTrig (ImageMatrix.mk 2 2 1 [0, 0, 0, 0]) (1 / 2)
      (ImageMatrix.mk 2 2 1 [0, 0, 0, 0]) 0 (by decide) hsome hdeg⟩

end TinyIMG
